import Mathlib

/-!
W25Q128JV serial NOR flash driver: embedding and verification.

The driver of `w25q128jv.c` is embedded as state-passing functions over a
`World`: the state of the device behind the SPI port, the RAM the caller's
buffers live in, and the trace of transport events issued so far.

* `uint32_t` values are natural numbers, reduced with `u32` wherever the C
  arithmetic can wrap; `int32_t` values are integers (`i32_of_u32`).
* `uint8_t` values are natural numbers reduced modulo 256 where they cross
  the SPI port or are loaded from RAM.
* The three porting-layer functions have no body in the source; they are the
  fields of a `Port`, a parameter of every driver function.
* Loops whose termination depends on the device (the busy poll) or on the
  loop counter (the page-splitting `do ... while`) take a bound `fuel` on
  the number of iterations and return `none` when it is exhausted.
* Buffers are addresses into the RAM of the world; `pbuf[i]` is the cell at
  `pbuf + i`.
* The world also keeps a log of the page-level calls entered (`calls`), a
  ghost record that no driver function reads.
-/

namespace W25Q128JV

/-! Machine integers -/

/-- Reduction of a natural number to `uint32_t`. -/
def u32 (n : Nat) : Nat := n % 4294967296

/-- The `uint32_t` difference `a - b`, wrapping below zero. -/
def sub32 (a b : Nat) : Nat := (a % 4294967296 + 4294967296 - b % 4294967296) % 4294967296

/-- Conversion `uint32_t` to `int32_t` (two's complement). -/
def i32_of_u32 (n : Nat) : Int :=
  if n % 4294967296 < 2147483648 then (n % 4294967296 : Nat) else (n % 4294967296 : Nat) - 4294967296

/-- Conversion `int32_t` to `uint32_t`. -/
def u32_of_i32 (i : Int) : Nat := (i % 4294967296).toNat

/-! Constants of the source -/

abbrev W25Q128JV_WRITE_ENABLE : Nat := 0x06
abbrev W25Q128JV_JEDEC_ID : Nat := 0x9F
abbrev W25Q128JV_READ_UNIQUE_ID : Nat := 0x4B
abbrev W25Q128JV_FAST_READ : Nat := 0x0B
abbrev W25Q128JV_PAGE_PROGRAM : Nat := 0x02
abbrev W25Q128JV_SECTOR_ERASE_4KB : Nat := 0x20
abbrev W25Q128JV_BLOCK_ERASE_64KB : Nat := 0xD8
abbrev W25Q128JV_CHIP_ERASE : Nat := 0xC7
abbrev W25Q128JV_READ_STATUS_REG1 : Nat := 0x05
abbrev W25Q128JV_PAGE_SIZE : Nat := 256
abbrev W25Q128JV_SECTOR_SIZE : Nat := 4096
abbrev W25Q128JV_BLOCK_SIZE : Nat := 65536
abbrev W25Q128JV_DUMMY_BYTE : Nat := 0x00
abbrev SUCCESSED : Nat := 1
abbrev FAILED : Nat := 0

/-! Transport port, events and world -/

/-- One transport event: a chip select, a chip deselect, or the exchange of
one byte (`tx` sent, `rx` received). -/
inductive Event where
  | cs_enable : Event
  | cs_disable : Event
  | spi (tx rx : Nat) : Event
deriving DecidableEq, Repr

/-- The porting layer: the byte exchange and the two chip-select functions,
acting on a device state `σ`. Their bodies are left open in the source. -/
structure Port (σ : Type) where
  spi : σ → Nat → Nat × σ
  cs_enable : σ → σ
  cs_disable : σ → σ

/-- Record of one call of a page-level function: which one, its three scalar
arguments, and `count`, the bound of its data loop (the number of data bytes
it exchanges). -/
structure PageCall where
  write : Bool
  page_num : Nat
  offset : Nat
  length : Nat
  count : Nat
deriving DecidableEq, Repr

/-- State of a run: device state, RAM (address to byte), transport events in
issue order, and the page-level calls entered so far in call order. -/
structure World (σ : Type) where
  dev : σ
  mem : Nat → Nat
  trace : List Event
  calls : List PageCall

/-- A world in which nothing has happened yet. -/
def World.init {σ : Type} (d : σ) (mem : Nat → Nat) : World σ :=
  { dev := d, mem := mem, trace := [], calls := [] }

variable {σ : Type}

/-! Porting layer and static functions -/

/-- Source function `w25q128jv_spi`: exchange one byte; both directions are
`uint8_t`. -/
def w25q128jv_spi (P : Port σ) (data : Nat) (w : World σ) : Nat × World σ :=
  let r := P.spi w.dev (data % 256)
  (r.1 % 256, { w with dev := r.2, trace := w.trace ++ [Event.spi (data % 256) (r.1 % 256)] })

/-- Source function `__w25q128jv_CS_ENABLE`. -/
def __w25q128jv_CS_ENABLE (P : Port σ) (w : World σ) : World σ :=
  { w with dev := P.cs_enable w.dev, trace := w.trace ++ [Event.cs_enable] }

/-- Source function `__w25q128jv_CS_DISABLE`. -/
def __w25q128jv_CS_DISABLE (P : Port σ) (w : World σ) : World σ :=
  { w with dev := P.cs_disable w.dev, trace := w.trace ++ [Event.cs_disable] }

/-- Source function `w25q128jv_write_enable`. -/
def w25q128jv_write_enable (P : Port σ) (w : World σ) : World σ :=
  let w := __w25q128jv_CS_ENABLE P w
  let w := (w25q128jv_spi P W25Q128JV_WRITE_ENABLE w).2
  __w25q128jv_CS_DISABLE P w

/-- The loop `while (w25q128jv_spi(W25Q128JV_DUMMY_BYTE) & 0x01) ;` of
`w25q128jv_wait_for_busy`, at most `fuel` polls. -/
def busy_poll (P : Port σ) : Nat → World σ → Option (World σ)
  | 0, _ => none
  | fuel + 1, w =>
    let r := w25q128jv_spi P W25Q128JV_DUMMY_BYTE w
    if r.1 &&& 0x01 ≠ 0 then busy_poll P fuel r.2 else some r.2

/-- Source function `w25q128jv_wait_for_busy`. -/
def w25q128jv_wait_for_busy (P : Port σ) (fuel : Nat) (w : World σ) : Option (World σ) :=
  let w := __w25q128jv_CS_ENABLE P w
  let w := (w25q128jv_spi P W25Q128JV_READ_STATUS_REG1 w).2
  (busy_poll P fuel w).map (__w25q128jv_CS_DISABLE P)

/-- Source function `w25q128jv_page2sector`. -/
def w25q128jv_page2sector (page_num : Nat) : Nat :=
  u32 (page_num * W25Q128JV_PAGE_SIZE) / W25Q128JV_SECTOR_SIZE

/-- Source function `w25q128jv_page2block`. -/
def w25q128jv_page2block (page_num : Nat) : Nat :=
  u32 (page_num * W25Q128JV_PAGE_SIZE) / W25Q128JV_BLOCK_SIZE

/-- Source function `w25q128jv_sector2block`. -/
def w25q128jv_sector2block (sector_num : Nat) : Nat :=
  u32 (sector_num * W25Q128JV_SECTOR_SIZE) / W25Q128JV_BLOCK_SIZE

/-- Source function `w25q128jv_sector2page`. -/
def w25q128jv_sector2page (sector_num : Nat) : Nat :=
  u32 (sector_num * W25Q128JV_SECTOR_SIZE) / W25Q128JV_PAGE_SIZE

/-- Source function `w25q128jv_block2sector`. -/
def w25q128jv_block2sector (block_num : Nat) : Nat :=
  u32 (block_num * W25Q128JV_BLOCK_SIZE) / W25Q128JV_SECTOR_SIZE

/-- Source function `w25q128jv_block2page`. -/
def w25q128jv_block2page (block_num : Nat) : Nat :=
  u32 (block_num * W25Q128JV_BLOCK_SIZE) / W25Q128JV_PAGE_SIZE

/-! Public functions -/

/-- The three address bytes `(a & 0xFF0000) >> 16`, `(a & 0xFF00) >> 8`,
`a & 0xFF` sent after an opcode, in this order. -/
def send_addr (P : Port σ) (addr : Nat) (w : World σ) : World σ :=
  let w := (w25q128jv_spi P ((addr &&& 0xFF0000) >>> 16) w).2
  let w := (w25q128jv_spi P ((addr &&& 0xFF00) >>> 8) w).2
  (w25q128jv_spi P (addr &&& 0xFF) w).2

/-- Source function `w25q128jv_read_UID`: the returned status and the world after the call;
`uid` is the address of the buffer. -/
def w25q128jv_read_UID (P : Port σ) (uid length : Nat) (w : World σ) : Nat × World σ :=
  if length ≠ 8 then (FAILED, w)
  else
    let w := __w25q128jv_CS_ENABLE P w
    let w := (w25q128jv_spi P W25Q128JV_READ_UNIQUE_ID w).2
    let w := (List.range 4).foldl (fun w _ => (w25q128jv_spi P W25Q128JV_DUMMY_BYTE w).2) w
    let w := (List.range 8).foldl
      (fun w i =>
        let r := w25q128jv_spi P W25Q128JV_DUMMY_BYTE w
        { r.2 with mem := Function.update r.2.mem (uid + i) r.1 }) w
    let w := __w25q128jv_CS_DISABLE P w
    (SUCCESSED, w)

/-- The value of `length` after the two `if` statements at the head of
`w25q128jv_write_page`. -/
def write_page_length (offset length : Nat) : Nat :=
  let length₁ :=
    if u32 (length + offset) > W25Q128JV_PAGE_SIZE ∨ length = 0 then
      sub32 W25Q128JV_PAGE_SIZE offset
    else length
  if u32 (length₁ + offset) > W25Q128JV_PAGE_SIZE then sub32 W25Q128JV_PAGE_SIZE offset
  else length₁

/-- The value of `length` after the two `if` statements at the head of
`w25q128jv_read_page`. -/
def read_page_length (offset length : Nat) : Nat :=
  let length₁ := if length > W25Q128JV_PAGE_SIZE ∨ length = 0 then W25Q128JV_PAGE_SIZE else length
  if u32 (length₁ + offset) > W25Q128JV_PAGE_SIZE then sub32 W25Q128JV_PAGE_SIZE offset
  else length₁

/-- Source function `w25q128jv_write_page`; `pbuf` is the address of the buffer. -/
def w25q128jv_write_page (P : Port σ) (fuel : Nat) (pbuf page_num offset length : Nat)
    (w : World σ) : Option (World σ) :=
  let page_addr := u32 (u32 (page_num * W25Q128JV_PAGE_SIZE) + offset)
  let length₂ := write_page_length offset length
  let w := { w with calls := w.calls ++ [PageCall.mk true page_num offset length length₂] }
  let w := w25q128jv_write_enable P w
  (w25q128jv_wait_for_busy P fuel w).bind fun w =>
    let w := __w25q128jv_CS_ENABLE P w
    let w := (w25q128jv_spi P W25Q128JV_PAGE_PROGRAM w).2
    let w := send_addr P page_addr w
    let w := (List.range length₂).foldl (fun w i => (w25q128jv_spi P (w.mem (pbuf + i)) w).2) w
    let w := __w25q128jv_CS_DISABLE P w
    w25q128jv_wait_for_busy P fuel w

/-- The loop `do { w25q128jv_write_page(pbuf, wpage, ofs, wlength); wpage++;
wlength -= W25Q128JV_PAGE_SIZE - ofs; pbuf += W25Q128JV_PAGE_SIZE - ofs;
ofs = 0; } while (wlength > 0);` shared by `w25q128jv_write_sector` and
`w25q128jv_write_block`, at most `n` iterations. -/
def write_pages (P : Port σ) (fuel : Nat) :
    Nat → Nat → Nat → Int → Nat → World σ → Option (World σ)
  | 0, _, _, _, _, _ => none
  | n + 1, pbuf, wpage, wlength, ofs, w =>
    (w25q128jv_write_page P fuel pbuf wpage ofs (u32_of_i32 wlength) w).bind fun w =>
      let wpage := u32 (wpage + 1)
      let wlength := i32_of_u32 (sub32 (u32_of_i32 wlength) (sub32 W25Q128JV_PAGE_SIZE ofs))
      let pbuf := pbuf + sub32 W25Q128JV_PAGE_SIZE ofs
      let ofs := 0
      if wlength > 0 then write_pages P fuel n pbuf wpage wlength ofs w else some w

/-- Source function `w25q128jv_write_sector`. -/
def w25q128jv_write_sector (P : Port σ) (fuel : Nat) (pbuf sector_num offset length : Nat)
    (w : World σ) : Option (World σ) :=
  let length := if length > W25Q128JV_SECTOR_SIZE ∨ length = 0 then W25Q128JV_SECTOR_SIZE else length
  if offset ≥ W25Q128JV_SECTOR_SIZE then some w
  else
    let wlength : Int :=
      if u32 (length + offset) > W25Q128JV_SECTOR_SIZE then
        i32_of_u32 (sub32 W25Q128JV_SECTOR_SIZE offset)
      else i32_of_u32 length
    let wpage := u32 (w25q128jv_sector2page sector_num + offset / W25Q128JV_PAGE_SIZE)
    let ofs := offset % W25Q128JV_PAGE_SIZE
    write_pages P fuel fuel pbuf wpage wlength ofs w

/-- Source function `w25q128jv_write_block`. The page cursor starts from
`w25q128jv_sector2page(block_num)`, as in the source. -/
def w25q128jv_write_block (P : Port σ) (fuel : Nat) (pbuf block_num offset length : Nat)
    (w : World σ) : Option (World σ) :=
  let length := if length > W25Q128JV_BLOCK_SIZE ∨ length = 0 then W25Q128JV_BLOCK_SIZE else length
  if offset ≥ W25Q128JV_BLOCK_SIZE then some w
  else
    let wlength : Int :=
      if u32 (length + offset) > W25Q128JV_BLOCK_SIZE then
        i32_of_u32 (sub32 W25Q128JV_BLOCK_SIZE offset)
      else i32_of_u32 length
    let wpage := u32 (w25q128jv_sector2page block_num + offset / W25Q128JV_PAGE_SIZE)
    let ofs := offset % W25Q128JV_PAGE_SIZE
    write_pages P fuel fuel pbuf wpage wlength ofs w

/-- Source function `w25q128jv_read_page`; `pbuf` is the address of the buffer. -/
def w25q128jv_read_page (P : Port σ) (pbuf page_num offset length : Nat) (w : World σ) :
    World σ :=
  let page_addr := u32 (u32 (page_num * W25Q128JV_PAGE_SIZE) + offset)
  let length₂ := read_page_length offset length
  let w := { w with calls := w.calls ++ [PageCall.mk false page_num offset length length₂] }
  let w := __w25q128jv_CS_ENABLE P w
  let w := (w25q128jv_spi P W25Q128JV_FAST_READ w).2
  let w := send_addr P page_addr w
  let w := (w25q128jv_spi P 0 w).2
  let w := (List.range length₂).foldl
    (fun w i =>
      let r := w25q128jv_spi P W25Q128JV_DUMMY_BYTE w
      { r.2 with mem := Function.update r.2.mem (pbuf + i) r.1 }) w
  __w25q128jv_CS_DISABLE P w

/-- The loop `do { w25q128jv_read_page(pbuf, rpage, ofs, rlength); rpage++;
rlength -= W25Q128JV_PAGE_SIZE - ofs; pbuf += W25Q128JV_PAGE_SIZE - ofs;
ofs = 0; } while (rlength > 0);` shared by `w25q128jv_read_sector` and
`w25q128jv_read_block`, at most `n` iterations. -/
def read_pages (P : Port σ) : Nat → Nat → Nat → Int → Nat → World σ → Option (World σ)
  | 0, _, _, _, _, _ => none
  | n + 1, pbuf, rpage, rlength, ofs, w =>
    let w := w25q128jv_read_page P pbuf rpage ofs (u32_of_i32 rlength) w
    let rpage := u32 (rpage + 1)
    let rlength := i32_of_u32 (sub32 (u32_of_i32 rlength) (sub32 W25Q128JV_PAGE_SIZE ofs))
    let pbuf := pbuf + sub32 W25Q128JV_PAGE_SIZE ofs
    let ofs := 0
    if rlength > 0 then read_pages P n pbuf rpage rlength ofs w else some w

/-- Source function `w25q128jv_read_sector`. -/
def w25q128jv_read_sector (P : Port σ) (fuel : Nat) (pbuf sector_num offset length : Nat)
    (w : World σ) : Option (World σ) :=
  let length := if length > W25Q128JV_SECTOR_SIZE ∨ length = 0 then W25Q128JV_SECTOR_SIZE else length
  if offset ≥ W25Q128JV_SECTOR_SIZE then some w
  else
    let rlength : Int :=
      if u32 (length + offset) > W25Q128JV_SECTOR_SIZE then
        i32_of_u32 (sub32 W25Q128JV_SECTOR_SIZE offset)
      else i32_of_u32 length
    let rpage := u32 (w25q128jv_sector2page sector_num + offset / W25Q128JV_PAGE_SIZE)
    let ofs := offset % W25Q128JV_PAGE_SIZE
    read_pages P fuel pbuf rpage rlength ofs w

/-- Source function `w25q128jv_read_block`. -/
def w25q128jv_read_block (P : Port σ) (fuel : Nat) (pbuf block_num offset length : Nat)
    (w : World σ) : Option (World σ) :=
  let length := if length > W25Q128JV_BLOCK_SIZE ∨ length = 0 then W25Q128JV_BLOCK_SIZE else length
  if offset ≥ W25Q128JV_BLOCK_SIZE then some w
  else
    let rlength : Int :=
      if u32 (length + offset) > W25Q128JV_BLOCK_SIZE then
        i32_of_u32 (sub32 W25Q128JV_BLOCK_SIZE offset)
      else i32_of_u32 length
    let rpage := u32 (w25q128jv_block2page block_num + offset / W25Q128JV_PAGE_SIZE)
    let ofs := offset % W25Q128JV_PAGE_SIZE
    read_pages P fuel pbuf rpage rlength ofs w

/-- Source function `w25q128jv_read_JEDEC_ID`: the returned identifier and the
world after the call. The three received bytes are widened to `uint32_t`
before they are shifted and combined. -/
def w25q128jv_read_JEDEC_ID (P : Port σ) (w : World σ) : Nat × World σ :=
  let w := __w25q128jv_CS_ENABLE P w
  let w := (w25q128jv_spi P W25Q128JV_JEDEC_ID w).2
  let r₁ := w25q128jv_spi P W25Q128JV_DUMMY_BYTE w
  let r₂ := w25q128jv_spi P W25Q128JV_DUMMY_BYTE r₁.2
  let r₃ := w25q128jv_spi P W25Q128JV_DUMMY_BYTE r₂.2
  let manufacture_id := r₁.1
  let device_id_h := r₂.1
  let device_id_l := r₃.1
  let w := __w25q128jv_CS_DISABLE P r₃.2
  (u32 (manufacture_id <<< 16) ||| u32 (device_id_h <<< 8) ||| device_id_l, w)

/-- Source function `w25q128jv_erase_chip`. -/
def w25q128jv_erase_chip (P : Port σ) (fuel : Nat) (w : World σ) : Option (World σ) :=
  let w := w25q128jv_write_enable P w
  (w25q128jv_wait_for_busy P fuel w).bind fun w =>
    let w := __w25q128jv_CS_ENABLE P w
    let w := (w25q128jv_spi P W25Q128JV_CHIP_ERASE w).2
    let w := __w25q128jv_CS_DISABLE P w
    w25q128jv_wait_for_busy P fuel w

/-- Source function `w25q128jv_erase_sector`. -/
def w25q128jv_erase_sector (P : Port σ) (fuel : Nat) (sector_num : Nat) (w : World σ) :
    Option (World σ) :=
  let w := w25q128jv_write_enable P w
  (w25q128jv_wait_for_busy P fuel w).bind fun w =>
    let sector_addr := u32 (sector_num * W25Q128JV_SECTOR_SIZE)
    let w := __w25q128jv_CS_ENABLE P w
    let w := (w25q128jv_spi P W25Q128JV_SECTOR_ERASE_4KB w).2
    let w := send_addr P sector_addr w
    let w := __w25q128jv_CS_DISABLE P w
    w25q128jv_wait_for_busy P fuel w

/-- Source function `w25q128jv_erase_block`. -/
def w25q128jv_erase_block (P : Port σ) (fuel : Nat) (block_num : Nat) (w : World σ) :
    Option (World σ) :=
  let w := w25q128jv_write_enable P w
  (w25q128jv_wait_for_busy P fuel w).bind fun w =>
    let block_addr := u32 (block_num * W25Q128JV_BLOCK_SIZE)
    let w := __w25q128jv_CS_ENABLE P w
    let w := (w25q128jv_spi P W25Q128JV_BLOCK_ERASE_64KB w).2
    let w := send_addr P block_addr w
    let w := __w25q128jv_CS_DISABLE P w
    w25q128jv_wait_for_busy P fuel w

/-- Source function `w25q128jv_write_byte`; `pbuf` is the byte to write. -/
def w25q128jv_write_byte (P : Port σ) (fuel : Nat) (pbuf addr : Nat) (w : World σ) :
    Option (World σ) :=
  let w := w25q128jv_write_enable P w
  (w25q128jv_wait_for_busy P fuel w).bind fun w =>
    let w := __w25q128jv_CS_ENABLE P w
    let w := (w25q128jv_spi P W25Q128JV_PAGE_PROGRAM w).2
    let w := send_addr P addr w
    let w := (w25q128jv_spi P pbuf w).2
    let w := __w25q128jv_CS_DISABLE P w
    w25q128jv_wait_for_busy P fuel w

/-- Source function `w25q128jv_read_byte`; `pbuf` is the address the byte is
stored at. -/
def w25q128jv_read_byte (P : Port σ) (pbuf addr : Nat) (w : World σ) : World σ :=
  let w := __w25q128jv_CS_ENABLE P w
  let w := (w25q128jv_spi P W25Q128JV_FAST_READ w).2
  let w := send_addr P addr w
  let w := (w25q128jv_spi P 0 w).2
  let r := w25q128jv_spi P W25Q128JV_DUMMY_BYTE w
  let w := { r.2 with mem := Function.update r.2.mem pbuf r.1 }
  __w25q128jv_CS_DISABLE P w

/-- Source function `w25q128jv_read_bytes`; `pbuf` is the address of the buffer. -/
def w25q128jv_read_bytes (P : Port σ) (pbuf addr length : Nat) (w : World σ) : World σ :=
  let w := __w25q128jv_CS_ENABLE P w
  let w := (w25q128jv_spi P W25Q128JV_FAST_READ w).2
  let w := send_addr P addr w
  let w := (w25q128jv_spi P 0 w).2
  let w := (List.range length).foldl
    (fun w i =>
      let r := w25q128jv_spi P W25Q128JV_DUMMY_BYTE w
      { r.2 with mem := Function.update r.2.mem (pbuf + i) r.1 }) w
  __w25q128jv_CS_DISABLE P w

/-! Reading a trace as transactions -/

/-- A transaction: the exchanges `(tx, rx)` made between a chip select and the
following chip deselect, in order. -/
abbrev Txn := List (Nat × Nat)

/-- Splitting of a trace into transactions; the first argument is the
transaction that is open, if any. Exchanges made while the chip is deselected
belong to no transaction. -/
def txns_aux : Option Txn → List Event → List Txn
  | _, [] => []
  | _, Event.cs_enable :: es => txns_aux (some []) es
  | some cur, Event.spi t r :: es => txns_aux (some (cur ++ [(t, r)])) es
  | none, Event.spi _ _ :: es => txns_aux none es
  | some cur, Event.cs_disable :: es => cur :: txns_aux none es
  | none, Event.cs_disable :: es => txns_aux none es

/-- The completed transactions of a trace, in issue order. -/
def transactions (t : List Event) : List Txn := txns_aux none t

/-- The event of one exchange. -/
def to_event (p : Nat × Nat) : Event := Event.spi p.1 p.2

/-- The events of one transaction. -/
def render_txn (x : Txn) : List Event := Event.cs_enable :: (x.map to_event ++ [Event.cs_disable])

/-- The events of a sequence of transactions. -/
def render : List Txn → List Event
  | [] => []
  | x :: T => render_txn x ++ render T

/-- Bytes `ds` laid at consecutive addresses from `a`: `(a, d₀), (a+1, d₁), …`. -/
def place : Nat → List Nat → List (Nat × Nat)
  | _, [] => []
  | a, d :: ds => (a, d) :: place (a + 1) ds

/-- The 24-bit address made of three bytes, most significant first. -/
def addr24 (a2 a1 a0 : Nat) : Nat := a2 * 65536 + a1 * 256 + a0

/-- Bytes a page-program transaction sends, each with its device address:
the 24-bit start address plus the index within the payload. Empty for any
other transaction. -/
def program_bytes (x : Txn) : List (Nat × Nat) :=
  match x.map Prod.fst with
  | op :: a2 :: a1 :: a0 :: data =>
    if op = W25Q128JV_PAGE_PROGRAM then place (addr24 a2 a1 a0) data else []
  | _ => []

/-- Bytes a fast-read transaction receives after its dummy byte, each with its
device address. Empty for any other transaction. -/
def read_bytes (x : Txn) : List (Nat × Nat) :=
  match x with
  | (op, _) :: (a2, _) :: (a1, _) :: (a0, _) :: _ :: data =>
    if op = W25Q128JV_FAST_READ then place (addr24 a2 a1 a0) (data.map Prod.snd) else []
  | _ => []

/-- All `(address, byte)` pairs programmed by the page-program transactions
of a trace, in issue order. -/
def programmed (t : List Event) : List (Nat × Nat) := (transactions t).flatMap program_bytes

/-- All `(address, byte)` pairs received by the fast-read transactions of a
trace, in issue order. -/
def read_back (t : List Event) : List (Nat × Nat) := (transactions t).flatMap read_bytes

/-- Start address and number of data bytes of a page-program or fast-read
transaction; `none` for any other transaction. -/
def data_span (x : Txn) : Option (Nat × Nat) :=
  match x.map Prod.fst with
  | op :: a2 :: a1 :: a0 :: rest =>
    if op = W25Q128JV_PAGE_PROGRAM then some (addr24 a2 a1 a0, rest.length)
    else if op = W25Q128JV_FAST_READ then some (addr24 a2 a1 a0, rest.length - 1)
    else none
  | _ => none

/-- The three bytes of a 24-bit address as the driver sends them. -/
def addr_bytes (a : Nat) : List Nat := [a / 65536 % 256, a / 256 % 256, a % 256]

/-- The 32-bit byte address `page_num * W25Q128JV_PAGE_SIZE + offset` computed
by the page-level functions. -/
def page_addr (page_num offset : Nat) : Nat := u32 (u32 (page_num * W25Q128JV_PAGE_SIZE) + offset)

/-- The page-level calls of a splitting loop entered with page cursor `page`,
in-page offset `ofs` and remaining length `len`, at most `n` of them: each
call runs to the end of its page or to the end of the request, and the next
one starts at offset zero of the next page. -/
def span_calls (wr : Bool) : Nat → Nat → Nat → Nat → List PageCall
  | 0, _, _, _ => []
  | n + 1, page, ofs, len =>
    PageCall.mk wr page ofs len (min len (256 - ofs)) ::
      (if 256 - ofs < len then span_calls wr n (u32 (page + 1)) 0 (len - (256 - ofs)) else [])

/-- The 24-bit start address and the number of data bytes of the transaction
a page-level call issues. -/
def call_span (c : PageCall) : Nat × Nat := (page_addr c.page_num c.offset % 16777216, c.count)

/-- The effective length of a request on a unit of `unit` bytes: a length of
zero or above the unit size counts as the unit size, and the result is cut at
the end of the unit. -/
def effective_length (unit offset length : Nat) : Nat :=
  min (if length = 0 ∨ unit < length then unit else length) (unit - offset)

/-- What it means for a run of a sector- or block-level function to respect
the page boundaries: it returns; every page-level call it makes has an in-page
offset below 256 and a byte count `n` with `1 ≤ n` and `offset + n ≤ 256`; the
page-program and fast-read transactions of its trace are exactly the ones of
these calls, in order; so each of them starts at an in-page position `a % 256`
and carries `n` data bytes with `1 ≤ n` and `a % 256 + n ≤ 256`. -/
def PageSafe (r : Option (World σ)) : Prop :=
  ∃ w', r = some w' ∧
    (∀ c ∈ w'.calls, c.offset < 256 ∧ 1 ≤ c.count ∧ c.offset + c.count ≤ 256) ∧
    (transactions w'.trace).filterMap data_span = w'.calls.map call_span ∧
    (∀ x ∈ transactions w'.trace, ∀ a n, data_span x = some (a, n) →
      1 ≤ n ∧ a % 256 + n ≤ 256)

/-- Modelled from the spec: the flash device of the round-trip law, which is not
part of the sources. Its state is a map `cells` from address to byte, whether
the chip is selected, and the bytes received since the chip was selected. -/
structure Flash where
  cells : Nat → Nat
  selected : Bool
  cmd : List Nat

/-- Modelled from the spec: one byte exchange of the flash device. In a
page-program transaction (opcode and three address bytes received) the byte is
stored at the start address plus the number of data bytes already received. In
a fast-read transaction, after the dummy byte, the answer is the cell at the
start address plus the number of data bytes already returned. Every other
exchange, status-register reads included, answers zero: the busy flag reads
clear. -/
def Flash.exchange (s : Flash) (tx : Nat) : Nat × Flash :=
  if s.selected then
    match s.cmd with
    | op :: a2 :: a1 :: a0 :: rest =>
      if op = W25Q128JV_PAGE_PROGRAM then
        (0, { s with cmd := s.cmd ++ [tx],
                     cells := Function.update s.cells (addr24 a2 a1 a0 + rest.length) tx })
      else if op = W25Q128JV_FAST_READ then
        (match rest with
          | [] => 0
          | _ :: data => s.cells (addr24 a2 a1 a0 + data.length),
         { s with cmd := s.cmd ++ [tx] })
      else (0, { s with cmd := s.cmd ++ [tx] })
    | _ => (0, { s with cmd := s.cmd ++ [tx] })
  else (0, s)

/-- Modelled from the spec: the port of the flash device; selecting and
deselecting the chip start a fresh transaction. -/
def flash_port : Port Flash :=
  { spi := Flash.exchange
    cs_enable := fun s => { s with selected := true, cmd := [] }
    cs_disable := fun s => { s with selected := false, cmd := [] } }

/-- The device answers every status-register poll of `w25q128jv_wait_for_busy`
with a clear busy flag after at most `fuel` polls, whatever state it is in. -/
def BusyClears (P : Port σ) (fuel : Nat) : Prop :=
  ∀ w : World σ, (w25q128jv_wait_for_busy P fuel w).isSome

/-- A port whose device has no state and answers every exchange with zero. -/
def idle_port : Port Unit :=
  { spi := fun _ _ => (0, ()), cs_enable := fun _ => (), cs_disable := fun _ => () }

/-- The first byte a transaction sends, if it sends any. -/
def opcode (x : Txn) : Option Nat := (x.map Prod.fst).head?

/-- The opcodes of the transactions of a trace, in issue order. -/
def opcodes (t : List Event) : List Nat := (transactions t).filterMap opcode

/-- Whether an opcode is a program or erase command: page program, sector
erase, block erase or chip erase. -/
def is_command (op : Nat) : Bool :=
  op == W25Q128JV_PAGE_PROGRAM || op == W25Q128JV_SECTOR_ERASE_4KB ||
    op == W25Q128JV_BLOCK_ERASE_64KB || op == W25Q128JV_CHIP_ERASE

/-- The opcode sequence in which every command of `cmds` is issued as write
enable, status poll, the command, status poll. -/
def enabled_commands (cmds : List Nat) : List Nat :=
  cmds.flatMap fun c =>
    [W25Q128JV_WRITE_ENABLE, W25Q128JV_READ_STATUS_REG1, c, W25Q128JV_READ_STATUS_REG1]

/-- What it means for a run to write-enable every program or erase command: it
returns, and the opcodes of its transactions are those of a list `cmds` of
program and erase commands, each issued as write enable, status poll, command,
status poll; so there are as many write enables as commands. -/
def WriteEnabled (r : Option (World σ)) : Prop :=
  ∃ w' cmds, r = some w' ∧ (∀ c ∈ cmds, is_command c = true) ∧
    opcodes w'.trace = enabled_commands cmds ∧
    (opcodes w'.trace).count W25Q128JV_WRITE_ENABLE = cmds.length ∧
    ((opcodes w'.trace).filter is_command).length = cmds.length

/-- Check that chip selects and deselects alternate in a trace and that every
exchange happens while the chip is selected; the first argument tells whether
the chip is selected before the first event, and the chip must be deselected
after the last. -/
def well_bracketed : Bool → List Event → Bool
  | sel, [] => !sel
  | false, Event.cs_enable :: es => well_bracketed true es
  | true, Event.cs_disable :: es => well_bracketed false es
  | true, Event.spi _ _ :: es => well_bracketed true es
  | true, Event.cs_enable :: _ => false
  | false, Event.cs_disable :: _ => false
  | false, Event.spi _ _ :: _ => false

/-- A run that returns with a trace in which selects and deselects alternate,
starting from and ending in the deselected state. -/
def Bracketed (r : Option (World σ)) : Prop :=
  ∃ w', r = some w' ∧ well_bracketed false w'.trace = true

/-- Check of the remaining-length counter along the page-level calls of one
splitting loop (`length` is the counter each call is entered with): every call
but the last leaves a positive remainder, which is the counter of the next
call and is smaller by `256 - offset`, a number from 1 to 256; the last call
leaves a remainder that is zero or negative. -/
def countdown : List PageCall → Bool
  | [] => false
  | [c] => decide (c.offset < 256 ∧ 0 < c.length ∧ c.length ≤ 256 - c.offset)
  | c :: c' :: rest =>
    decide (c.offset < 256 ∧ 256 - c.offset < c.length ∧
      c'.length + (256 - c.offset) = c.length) && countdown (c' :: rest)

/-- A run of a splitting loop that returns after between 1 and `hi` page-level
calls, with the remaining-length counter counting down as `countdown` says. -/
def Terminates (hi : Nat) (r : Option (World σ)) : Prop :=
  ∃ w', r = some w' ∧ 1 ≤ w'.calls.length ∧ w'.calls.length ≤ hi ∧ countdown w'.calls = true

/-- A port that answers the exchanges with the bytes of a list, in order, and
with zero once the list is used up. -/
def script_port : Port (List Nat) :=
  { spi := fun s _ => (s.headD 0, s.tail), cs_enable := fun s => s, cs_disable := fun s => s }

/-! Arithmetic of the machine integers -/

theorem and_shiftRight_mask (a m i : Nat) : (a &&& m) >>> i = (a >>> i) &&& (m >>> i) := by
  apply Nat.eq_of_testBit_eq
  intro j
  simp [Nat.testBit_shiftRight, Nat.testBit_and]

theorem addr_byte2 (a : Nat) : (a &&& 0xFF0000) >>> 16 = a / 65536 % 256 := by
  rw [and_shiftRight_mask]
  have h : (0xFF0000 : Nat) >>> 16 = 2 ^ 8 - 1 := by decide
  rw [h, Nat.and_pow_two_sub_one_eq_mod, Nat.shiftRight_eq_div_pow]

theorem addr_byte1 (a : Nat) : (a &&& 0xFF00) >>> 8 = a / 256 % 256 := by
  rw [and_shiftRight_mask]
  have h : (0xFF00 : Nat) >>> 8 = 2 ^ 8 - 1 := by decide
  rw [h, Nat.and_pow_two_sub_one_eq_mod, Nat.shiftRight_eq_div_pow]

theorem addr_byte0 (a : Nat) : a &&& 0xFF = a % 256 :=
  Nat.and_pow_two_sub_one_eq_mod a 8

theorem addr24_bytes (a : Nat) :
    addr24 (((a &&& 0xFF0000) >>> 16) % 256) (((a &&& 0xFF00) >>> 8) % 256) ((a &&& 0xFF) % 256)
      = a % 16777216 := by
  rw [addr_byte2, addr_byte1, addr_byte0]
  unfold addr24
  omega

theorem sub32_page (ofs : Nat) (h : ofs ≤ 256) : sub32 256 ofs = 256 - ofs := by
  unfold sub32; omega

theorem i32_step (l d : Nat) (hl : l < 2147483648) (hd : d ≤ 256) :
    i32_of_u32 (sub32 (u32_of_i32 (l : Int)) d) = (l : Int) - d := by
  unfold i32_of_u32 sub32 u32_of_i32
  split <;> omega

theorem u32_of_i32_nat (l : Nat) (hl : l < 4294967296) : u32_of_i32 (l : Int) = l := by
  unfold u32_of_i32; omega

theorem i32_of_u32_small (l : Nat) (hl : l < 2147483648) : i32_of_u32 l = (l : Int) := by
  unfold i32_of_u32
  split <;> omega

/-! Effect of the primitives on the world -/

@[simp] theorem spi_mem (P : Port σ) (d : Nat) (w : World σ) :
    (w25q128jv_spi P d w).2.mem = w.mem := rfl

@[simp] theorem spi_calls (P : Port σ) (d : Nat) (w : World σ) :
    (w25q128jv_spi P d w).2.calls = w.calls := rfl

@[simp] theorem spi_trace (P : Port σ) (d : Nat) (w : World σ) :
    (w25q128jv_spi P d w).2.trace
      = w.trace ++ [to_event (d % 256, (w25q128jv_spi P d w).1)] := rfl

@[simp] theorem cs_enable_mem (P : Port σ) (w : World σ) :
    (__w25q128jv_CS_ENABLE P w).mem = w.mem := rfl

@[simp] theorem cs_enable_calls (P : Port σ) (w : World σ) :
    (__w25q128jv_CS_ENABLE P w).calls = w.calls := rfl

@[simp] theorem cs_enable_trace (P : Port σ) (w : World σ) :
    (__w25q128jv_CS_ENABLE P w).trace = w.trace ++ [Event.cs_enable] := rfl

@[simp] theorem cs_disable_mem (P : Port σ) (w : World σ) :
    (__w25q128jv_CS_DISABLE P w).mem = w.mem := rfl

@[simp] theorem cs_disable_calls (P : Port σ) (w : World σ) :
    (__w25q128jv_CS_DISABLE P w).calls = w.calls := rfl

@[simp] theorem cs_disable_trace (P : Port σ) (w : World σ) :
    (__w25q128jv_CS_DISABLE P w).trace = w.trace ++ [Event.cs_disable] := rfl

/-! Transactions of rendered traces -/

theorem txns_aux_open (cur x : Txn) (rest : List Event) :
    txns_aux (some cur) (x.map to_event ++ Event.cs_disable :: rest)
      = (cur ++ x) :: txns_aux none rest := by
  induction x generalizing cur with
  | nil => simp [txns_aux]
  | cons p x ih =>
    obtain ⟨t, r⟩ := p
    have h := ih (cur ++ [(t, r)])
    simp only [List.map_cons, List.cons_append]
    rw [show to_event (t, r) = Event.spi t r from rfl, txns_aux, h]
    simp

theorem txns_aux_render_txn (o : Option Txn) (x : Txn) (rest : List Event) :
    txns_aux o (render_txn x ++ rest) = x :: txns_aux none rest := by
  unfold render_txn
  simp only [List.cons_append, List.append_assoc, List.singleton_append]
  cases o <;> simp [txns_aux, txns_aux_open]

theorem transactions_render (T : List Txn) : transactions (render T) = T := by
  unfold transactions
  induction T with
  | nil => simp [render, txns_aux]
  | cons x T ih => simp [render, txns_aux_render_txn, ih]

theorem render_append (T₁ T₂ : List Txn) : render (T₁ ++ T₂) = render T₁ ++ render T₂ := by
  induction T₁ with
  | nil => simp [render]
  | cons x T ih => simp [render, ih]

theorem place_append (a : Nat) (xs ys : List Nat) :
    place a (xs ++ ys) = place a xs ++ place (a + xs.length) ys := by
  induction xs generalizing a with
  | nil => simp [place]
  | cons x xs ih =>
    have h := ih (a + 1)
    rw [show a + 1 + xs.length = a + (x :: xs).length by simp only [List.length_cons]; omega] at h
    simp [place, h]

theorem place_length (a : Nat) (xs : List Nat) : (place a xs).length = xs.length := by
  induction xs generalizing a with
  | nil => simp [place]
  | cons x xs ih => simp [place, ih]

theorem place_range (a n : Nat) (f : Nat → Nat) :
    place a ((List.range n).map f) = (List.range n).map (fun k => (a + k, f k)) := by
  induction n with
  | zero => simp [place]
  | succ n ih => simp [List.range_succ, place_append, ih, place]

/-! Effect of the static functions and of the page-level functions -/

theorem write_enable_effect (P : Port σ) (w : World σ) :
    (w25q128jv_write_enable P w).mem = w.mem ∧ (w25q128jv_write_enable P w).calls = w.calls ∧
    ∃ x : Txn, (w25q128jv_write_enable P w).trace = w.trace ++ render_txn x ∧
      x.map Prod.fst = [W25Q128JV_WRITE_ENABLE] := by
  refine ⟨rfl, rfl, [(6, (w25q128jv_spi P 6 (__w25q128jv_CS_ENABLE P w)).1)], ?_, rfl⟩
  simp [w25q128jv_write_enable, render_txn, W25Q128JV_WRITE_ENABLE]

theorem busy_poll_effect (P : Port σ) (n : Nat) (w w' : World σ)
    (h : busy_poll P n w = some w') :
    w'.mem = w.mem ∧ w'.calls = w.calls ∧
    ∃ (ps : Txn) (k : Nat), w'.trace = w.trace ++ ps.map to_event ∧
      ps.map Prod.fst = List.replicate k 0 ∧ 1 ≤ k := by
  induction n generalizing w with
  | zero => simp [busy_poll] at h
  | succ n ih =>
    unfold busy_poll at h
    simp only at h
    split at h
    · obtain ⟨hm, hc, ps, k, ht, hp, _⟩ := ih _ h
      refine ⟨by simpa using hm, by simpa using hc,
        (0, (w25q128jv_spi P 0 w).1) :: ps, k + 1, ?_, ?_, by omega⟩
      · rw [ht]; simp
      · simp [hp, List.replicate_succ]
    · cases h
      refine ⟨rfl, rfl, [(0, (w25q128jv_spi P 0 w).1)], 1, ?_, rfl, le_refl 1⟩
      simp

theorem wait_for_busy_effect (P : Port σ) (fuel : Nat) (hb : BusyClears P fuel) (w : World σ) :
    ∃ w', w25q128jv_wait_for_busy P fuel w = some w' ∧ w'.mem = w.mem ∧ w'.calls = w.calls ∧
      ∃ (x : Txn) (k : Nat), w'.trace = w.trace ++ render_txn x ∧
        x.map Prod.fst = W25Q128JV_READ_STATUS_REG1 :: List.replicate k 0 ∧ 1 ≤ k := by
  obtain ⟨w', hw'⟩ := Option.isSome_iff_exists.mp (hb w)
  refine ⟨w', hw', ?_⟩
  unfold w25q128jv_wait_for_busy at hw'
  simp only [Option.map_eq_some'] at hw'
  obtain ⟨w₂, h₂, rfl⟩ := hw'
  obtain ⟨hm, hc, ps, k, ht, hp, hk⟩ := busy_poll_effect P fuel _ _ h₂
  refine ⟨by simpa using hm, by simpa using hc,
    (5, (w25q128jv_spi P 5 (__w25q128jv_CS_ENABLE P w)).1) :: ps, k, ?_, ?_, hk⟩
  · simp [ht, render_txn, W25Q128JV_READ_STATUS_REG1]
  · simp [hp]

theorem send_addr_effect (P : Port σ) (a : Nat) (w : World σ) :
    (send_addr P a w).mem = w.mem ∧ (send_addr P a w).calls = w.calls ∧
    ∃ x : Txn, (send_addr P a w).trace = w.trace ++ x.map to_event ∧
      x.map Prod.fst = addr_bytes a := by
  refine ⟨rfl, rfl,
    [((a &&& 0xFF0000) >>> 16 % 256, (w25q128jv_spi P ((a &&& 0xFF0000) >>> 16) w).1),
     ((a &&& 0xFF00) >>> 8 % 256, (w25q128jv_spi P ((a &&& 0xFF00) >>> 8)
        (w25q128jv_spi P ((a &&& 0xFF0000) >>> 16) w).2).1),
     ((a &&& 0xFF) % 256, (w25q128jv_spi P (a &&& 0xFF)
        (w25q128jv_spi P ((a &&& 0xFF00) >>> 8)
          (w25q128jv_spi P ((a &&& 0xFF0000) >>> 16) w).2).2).1)], ?_, ?_⟩
  · simp [send_addr]
  · simp [addr_bytes, addr_byte2, addr_byte1, addr_byte0]

/-- The data loop of `w25q128jv_write_page`. -/
theorem send_loop_effect (P : Port σ) (pbuf n : Nat) (w w' : World σ)
    (h : (List.range n).foldl (fun w i => (w25q128jv_spi P (w.mem (pbuf + i)) w).2) w = w') :
    w'.mem = w.mem ∧ w'.calls = w.calls ∧
    ∃ x : Txn, w'.trace = w.trace ++ x.map to_event ∧
      x.map Prod.fst = (List.range n).map (fun i => w.mem (pbuf + i) % 256) := by
  induction n generalizing w' with
  | zero => cases h; exact ⟨rfl, rfl, [], by simp, rfl⟩
  | succ n ih =>
    obtain ⟨hm, hc, x, ht, hx⟩ := ih _ rfl
    simp only [List.range_succ, List.foldl_append, List.foldl_cons, List.foldl_nil] at h
    generalize (List.range n).foldl (fun w i => (w25q128jv_spi P (w.mem (pbuf + i)) w).2) w = W
      at h hm hc ht
    subst h
    refine ⟨by simpa using hm, by simpa using hc,
      x ++ [(w.mem (pbuf + n) % 256, (w25q128jv_spi P (W.mem (pbuf + n)) W).1)], ?_, ?_⟩
    · rw [spi_trace, ht, hm]; simp
    · simp [hx, List.range_succ]

/-- Effect of one call of `w25q128jv_write_page` on a device whose busy flag
clears: it returns, leaves RAM alone, records its call, and appends four
transactions: write enable, status poll, page program, status poll. -/
theorem write_page_effect (P : Port σ) (fuel : Nat) (hb : BusyClears P fuel)
    (pbuf page ofs len : Nat) (w : World σ) :
    ∃ w', w25q128jv_write_page P fuel pbuf page ofs len w = some w' ∧ w'.mem = w.mem ∧
      w'.calls = w.calls ++ [PageCall.mk true page ofs len (write_page_length ofs len)] ∧
      ∃ (x₁ x₂ x₃ x₄ : Txn) (k₁ k₂ : Nat), w'.trace = w.trace ++ render [x₁, x₂, x₃, x₄] ∧
        x₁.map Prod.fst = [W25Q128JV_WRITE_ENABLE] ∧
        x₂.map Prod.fst = W25Q128JV_READ_STATUS_REG1 :: List.replicate k₁ 0 ∧ 1 ≤ k₁ ∧
        x₃.map Prod.fst = W25Q128JV_PAGE_PROGRAM :: (addr_bytes (page_addr page ofs) ++
          (List.range (write_page_length ofs len)).map (fun i => w.mem (pbuf + i) % 256)) ∧
        x₄.map Prod.fst = W25Q128JV_READ_STATUS_REG1 :: List.replicate k₂ 0 ∧ 1 ≤ k₂ := by
  unfold w25q128jv_write_page
  simp only []
  generalize hw₀ : ({ w with calls := w.calls ++
    [PageCall.mk true page ofs len (write_page_length ofs len)] } : World σ) = w₀
  have hm₀ : w₀.mem = w.mem := by subst hw₀; rfl
  have hc₀ : w₀.calls = w.calls ++ [PageCall.mk true page ofs len (write_page_length ofs len)] := by
    subst hw₀; rfl
  have ht₀ : w₀.trace = w.trace := by subst hw₀; rfl
  obtain ⟨hm₁, hc₁, x₁, ht₁, hx₁⟩ := write_enable_effect P w₀
  obtain ⟨w₂, hw₂, hm₂, hc₂, x₂, k₁, ht₂, hx₂, hk₁⟩ :=
    wait_for_busy_effect P fuel hb (w25q128jv_write_enable P w₀)
  rw [hw₂, Option.some_bind]
  obtain ⟨hm₃, hc₃, xa, ht₃, hxa⟩ := send_addr_effect P (u32 (u32 (page * W25Q128JV_PAGE_SIZE) + ofs))
    (w25q128jv_spi P W25Q128JV_PAGE_PROGRAM (__w25q128jv_CS_ENABLE P w₂)).2
  obtain ⟨hm₄, hc₄, xd, ht₄, hxd⟩ := send_loop_effect P pbuf (write_page_length ofs len) _ _ rfl
  obtain ⟨w₅, hw₅, hm₅, hc₅, x₄, k₂, ht₅, hx₄, hk₂⟩ := wait_for_busy_effect P fuel hb
    (__w25q128jv_CS_DISABLE P (List.foldl (fun w i => (w25q128jv_spi P (w.mem (pbuf + i)) w).2)
      (send_addr P (u32 (u32 (page * W25Q128JV_PAGE_SIZE) + ofs))
        (w25q128jv_spi P W25Q128JV_PAGE_PROGRAM (__w25q128jv_CS_ENABLE P w₂)).2)
      (List.range (write_page_length ofs len))))
  refine ⟨w₅, hw₅, ?_, ?_, x₁, x₂,
    (2, (w25q128jv_spi P W25Q128JV_PAGE_PROGRAM (__w25q128jv_CS_ENABLE P w₂)).1) :: (xa ++ xd),
    x₄, k₁, k₂, ?_, hx₁, hx₂, hk₁, ?_, hx₄, hk₂⟩
  · rw [hm₅, cs_disable_mem, hm₄, hm₃, spi_mem, cs_enable_mem, hm₂, hm₁, hm₀]
  · rw [hc₅, cs_disable_calls, hc₄, hc₃, spi_calls, cs_enable_calls, hc₂, hc₁, hc₀]
  · rw [ht₅, cs_disable_trace, ht₄, ht₃, spi_trace, cs_enable_trace, ht₂, ht₁, ht₀]
    simp [render, render_txn, W25Q128JV_PAGE_PROGRAM]
  · simp only [List.map_cons, List.map_append, hxa, hxd, page_addr]
    rw [hm₃, spi_mem, cs_enable_mem, hm₂, hm₁, hm₀]

/-! Transactions by opcode -/

theorem data_span_other (x : Txn) (op : Nat) (l : List Nat) (h : x.map Prod.fst = op :: l)
    (h₁ : op ≠ W25Q128JV_PAGE_PROGRAM) (h₂ : op ≠ W25Q128JV_FAST_READ) : data_span x = none := by
  unfold data_span
  rw [h]
  split
  · next heq =>
    simp only [List.cons.injEq] at heq
    obtain ⟨rfl, _⟩ := heq
    simp [h₁, h₂]
  · rfl

theorem program_bytes_other (x : Txn) (op : Nat) (l : List Nat) (h : x.map Prod.fst = op :: l)
    (h₁ : op ≠ W25Q128JV_PAGE_PROGRAM) : program_bytes x = [] := by
  unfold program_bytes
  rw [h]
  split
  · next heq =>
    simp only [List.cons.injEq] at heq
    obtain ⟨rfl, _⟩ := heq
    simp [h₁]
  · rfl

theorem data_span_program (x : Txn) (a : Nat) (data : List Nat)
    (h : x.map Prod.fst = W25Q128JV_PAGE_PROGRAM :: (addr_bytes a ++ data)) :
    data_span x = some (a % 16777216, data.length) := by
  unfold data_span
  rw [h]
  simp [addr_bytes, addr24]
  omega

theorem program_bytes_program (x : Txn) (a : Nat) (data : List Nat)
    (h : x.map Prod.fst = W25Q128JV_PAGE_PROGRAM :: (addr_bytes a ++ data)) :
    program_bytes x = place (a % 16777216) data := by
  unfold program_bytes
  rw [h]
  simp only [addr_bytes, List.cons_append, List.nil_append, if_true]
  congr 1
  unfold addr24
  omega

/-! The page-splitting loops -/

theorem write_page_length_eq (ofs len : Nat) (ho : ofs < 256) (hl : 0 < len)
    (hb : len < 2147483648) : write_page_length ofs len = min len (256 - ofs) := by
  unfold write_page_length u32 sub32 W25Q128JV_PAGE_SIZE
  simp only []
  split <;> split <;> omega

theorem read_page_length_eq (ofs len : Nat) (ho : ofs < 256) (hl : 0 < len) :
    read_page_length ofs len = min len (256 - ofs) := by
  unfold read_page_length u32 sub32 W25Q128JV_PAGE_SIZE
  simp only []
  split <;> split <;> omega

theorem range_map_split (a b : Nat) (f : Nat → Nat × Nat) :
    (List.range (a + b)).map f = (List.range a).map f ++ (List.range b).map (fun k => f (a + k)) := by
  rw [List.range_add, List.map_append, List.map_map]
  rfl

/-- Effect of the `do ... while` loop of the sector and block writers, entered
with a positive remaining length `len` and an in-page offset below the page
size, on a device whose busy flag clears: with `n` iterations allowed and
`ofs + len ≤ 256 * n` it returns; RAM is unchanged; the calls made are
`span_calls`; the new events are whole transactions, whose data spans are
those of the calls, and whose programmed bytes are the first `len` bytes of
the buffer at consecutive addresses. -/
theorem write_pages_effect (P : Port σ) (fuel : Nat) (hb : BusyClears P fuel) (n : Nat) :
    ∀ (pbuf wpage len ofs : Nat) (w : World σ), ofs < 256 → 0 < len → len < 2147483648 →
      ofs + len ≤ 256 * n →
      ∃ (w' : World σ) (T : List Txn),
        write_pages P fuel n pbuf wpage (len : Int) ofs w = some w' ∧ w'.mem = w.mem ∧
        w'.calls = w.calls ++ span_calls true n wpage ofs len ∧
        w'.trace = w.trace ++ render T ∧
        T.filterMap data_span = (span_calls true n wpage ofs len).map call_span ∧
        (wpage * 256 + ofs + len ≤ 16777216 →
          T.flatMap program_bytes
            = (List.range len).map (fun k => (wpage * 256 + ofs + k, w.mem (pbuf + k) % 256))) := by
  induction n with
  | zero => intro _ _ len ofs _ _ h₁ _ h₂; omega
  | succ n ih =>
    intro pbuf wpage len ofs w ho hl hlb hn
    obtain ⟨w₁, hw₁, hm₁, hc₁, x₁, x₂, x₃, x₄, k₁, k₂, ht₁, hx₁, hx₂, _, hx₃, hx₄, _⟩ :=
      write_page_effect P fuel hb pbuf wpage ofs len w
    have hcount : write_page_length ofs len = min len (256 - ofs) :=
      write_page_length_eq ofs len ho hl hlb
    have hspan : [x₁, x₂, x₃, x₄].filterMap data_span
        = [(page_addr wpage ofs % 16777216, min len (256 - ofs))] := by
      simp only [List.filterMap_cons, List.filterMap_nil,
        data_span_other x₁ _ _ hx₁ (by decide) (by decide),
        data_span_other x₂ _ _ hx₂ (by decide) (by decide),
        data_span_other x₄ _ _ hx₄ (by decide) (by decide),
        data_span_program x₃ _ _ hx₃]
      simp [hcount]
    have hprog : [x₁, x₂, x₃, x₄].flatMap program_bytes
        = place (page_addr wpage ofs % 16777216)
            ((List.range (min len (256 - ofs))).map (fun i => w.mem (pbuf + i) % 256)) := by
      simp only [List.flatMap_cons, List.flatMap_nil,
        program_bytes_other x₁ _ _ hx₁ (by decide),
        program_bytes_other x₂ _ _ hx₂ (by decide),
        program_bytes_other x₄ _ _ hx₄ (by decide),
        program_bytes_program x₃ _ _ hx₃]
      simp [hcount]
    unfold write_pages
    simp only []
    rw [sub32_page ofs (by omega), i32_step len (256 - ofs) hlb (by omega),
      u32_of_i32_nat len (by omega), hw₁, Option.some_bind]
    by_cases hmore : 256 - ofs < len
    · have hcast : ((len : Int) - ((256 - ofs : Nat) : Int)) = ((len - (256 - ofs) : Nat) : Int) := by
        omega
      rw [if_pos (by omega), hcast]
      obtain ⟨w', T, hw', hm', hc', ht', hs', hp'⟩ :=
        ih (pbuf + (256 - ofs)) (u32 (wpage + 1)) (len - (256 - ofs)) 0 w₁ (by omega) (by omega)
          (by omega) (by omega)
      refine ⟨w', [x₁, x₂, x₃, x₄] ++ T, hw', by rw [hm', hm₁], ?_, ?_, ?_, ?_⟩
      · rw [hc', hc₁, hcount]
        simp [span_calls, hmore]
      · rw [ht', ht₁, render_append]; simp
      · rw [List.filterMap_append, hspan, hs']
        simp [span_calls, hmore, call_span]
      · intro hrange
        have hpa : page_addr wpage ofs % 16777216 = wpage * 256 + ofs := by
          unfold page_addr u32 W25Q128JV_PAGE_SIZE; omega
        have hu : u32 (wpage + 1) = wpage + 1 := by unfold u32; omega
        rw [hu] at hp'
        rw [List.flatMap_append, hprog, hp' (by omega), hpa, place_range, hm₁]
        have hmin : min len (256 - ofs) = 256 - ofs := by omega
        have hlen : len = (256 - ofs) + (len - (256 - ofs)) := by omega
        rw [hmin]
        conv_rhs => rw [hlen, range_map_split]
        rw [List.append_cancel_left_eq]
        apply List.map_congr_left
        intro k _
        have e₁ : (wpage + 1) * 256 + 0 + k = wpage * 256 + ofs + (256 - ofs + k) := by omega
        have e₂ : pbuf + (256 - ofs) + k = pbuf + (256 - ofs + k) := by omega
        rw [e₁, e₂]
    · rw [if_neg (by omega)]
      refine ⟨w₁, [x₁, x₂, x₃, x₄], rfl, hm₁, ?_, ht₁, ?_, ?_⟩
      · rw [hc₁, hcount]
        simp [span_calls, hmore]
      · rw [hspan]
        simp [span_calls, hmore, call_span]
      · intro hrange
        have hpa : page_addr wpage ofs % 16777216 = wpage * 256 + ofs := by
          unfold page_addr u32 W25Q128JV_PAGE_SIZE; omega
        have hmin : min len (256 - ofs) = len := by omega
        rw [hprog, hpa, place_range, hmin]

theorem idle_busy_clears (n : Nat) : BusyClears idle_port (n + 1) := by
  intro w
  simp [w25q128jv_wait_for_busy, busy_poll, w25q128jv_spi, idle_port]

theorem effective_length_pos (unit offset length : Nat) (hu : offset < unit) :
    0 < effective_length unit offset length := by
  unfold effective_length
  split <;> omega

theorem effective_length_le (unit offset length : Nat) :
    offset + effective_length unit offset length ≤ max unit offset := by
  unfold effective_length
  split <;> omega

/-- The entry `w25q128jv_write_sector` with an offset inside the sector is the
write loop entered at page `16 * sector_num + offset / 256`. -/
theorem write_sector_eq (P : Port σ) (fuel pbuf s offset length : Nat) (w : World σ)
    (ho : offset < 4096) :
    w25q128jv_write_sector P fuel pbuf s offset length w
      = write_pages P fuel fuel pbuf (u32 (w25q128jv_sector2page s + offset / 256))
          ((effective_length 4096 offset length : Nat) : Int) (offset % 256) w := by
  unfold w25q128jv_write_sector
  simp only [W25Q128JV_SECTOR_SIZE, W25Q128JV_PAGE_SIZE, ge_iff_le]
  rw [if_neg (by omega)]
  congr 1
  unfold effective_length u32 sub32 i32_of_u32
  split <;> split <;> split <;> split <;> omega

/-! The read side -/

/-- The data loop of `w25q128jv_read_page` (and of `w25q128jv_read_UID`): it
exchanges `n` dummy bytes and stores what it receives at `pbuf[0..n)`. -/
theorem recv_loop_effect (P : Port σ) (pbuf n : Nat) (w w' : World σ)
    (h : (List.range n).foldl
      (fun w i =>
        let r := w25q128jv_spi P W25Q128JV_DUMMY_BYTE w
        { r.2 with mem := Function.update r.2.mem (pbuf + i) r.1 }) w = w') :
    w'.calls = w.calls ∧ (∀ a, (a < pbuf ∨ pbuf + n ≤ a) → w'.mem a = w.mem a) ∧
    ∃ x : Txn, w'.trace = w.trace ++ x.map to_event ∧ x.map Prod.fst = List.replicate n 0 ∧
      x.map Prod.snd = (List.range n).map (fun i => w'.mem (pbuf + i)) := by
  induction n generalizing w' with
  | zero => cases h; exact ⟨rfl, fun _ _ => rfl, [], by simp, rfl, rfl⟩
  | succ n ih =>
    obtain ⟨hc, hf, x, ht, hx, hr⟩ := ih _ rfl
    simp only [List.range_succ, List.foldl_append, List.foldl_cons, List.foldl_nil] at h
    generalize (List.range n).foldl
      (fun w i =>
        let r := w25q128jv_spi P W25Q128JV_DUMMY_BYTE w
        { r.2 with mem := Function.update r.2.mem (pbuf + i) r.1 }) w = W at h hc hf ht hr
    subst h
    refine ⟨hc, ?_, x ++ [(0, (w25q128jv_spi P W25Q128JV_DUMMY_BYTE W).1)], ?_, ?_, ?_⟩
    · intro a ha
      have hne : a ≠ pbuf + n := by omega
      simp only [spi_mem, Function.update_noteq hne]
      exact hf a (by omega)
    · simp only [spi_trace, ht]
      simp [W25Q128JV_DUMMY_BYTE]
    · simp [hx, List.replicate_succ']
    · simp only [List.map_append, hr, List.map_cons, List.map_nil, spi_mem, List.range_succ]
      rw [Function.update_same]
      congr 1
      apply List.map_congr_left
      intro i hi
      have hne : pbuf + i ≠ pbuf + n := by
        have := List.mem_range.mp hi
        omega
      rw [Function.update_noteq hne]

theorem data_span_fast_read (x : Txn) (a n : Nat)
    (h : x.map Prod.fst = W25Q128JV_FAST_READ :: (addr_bytes a ++ 0 :: List.replicate n 0)) :
    data_span x = some (a % 16777216, n) := by
  unfold data_span
  rw [h]
  simp [addr_bytes, addr24]
  omega

theorem read_bytes_fast_read (r rd a : Nat) (xa xd : Txn) (h : xa.map Prod.fst = addr_bytes a) :
    read_bytes ((W25Q128JV_FAST_READ, r) :: (xa ++ (0, rd) :: xd))
      = place (a % 16777216) (xd.map Prod.snd) := by
  rcases xa with _ | ⟨p2, _ | ⟨p1, _ | ⟨p0, _ | ⟨p, rest⟩⟩⟩⟩ <;> simp [addr_bytes] at h
  obtain ⟨h2, h1, h0⟩ := h
  obtain ⟨t2, r2⟩ := p2
  obtain ⟨t1, r1⟩ := p1
  obtain ⟨t0, r0⟩ := p0
  simp only at h2 h1 h0
  subst h2 h1 h0
  simp only [read_bytes, List.cons_append, List.nil_append, if_true]
  congr 1
  unfold addr24
  omega

/-- Effect of one call of `w25q128jv_read_page`: it records its call and appends
one fast-read transaction; the bytes received after the dummy byte are stored
at `pbuf[0..count)` and no other RAM cell changes. -/
theorem read_page_effect (P : Port σ) (pbuf page ofs len : Nat) (w w' : World σ)
    (h : w25q128jv_read_page P pbuf page ofs len w = w') :
    w'.calls = w.calls ++ [PageCall.mk false page ofs len (read_page_length ofs len)] ∧
    (∀ a, (a < pbuf ∨ pbuf + read_page_length ofs len ≤ a) → w'.mem a = w.mem a) ∧
    ∃ x : Txn, w'.trace = w.trace ++ render [x] ∧
      x.map Prod.fst = W25Q128JV_FAST_READ ::
        (addr_bytes (page_addr page ofs) ++ 0 :: List.replicate (read_page_length ofs len) 0) ∧
      read_bytes x = (List.range (read_page_length ofs len)).map
        (fun i => (page_addr page ofs % 16777216 + i, w'.mem (pbuf + i))) := by
  unfold w25q128jv_read_page at h
  simp only [] at h
  generalize hw₀ : ({ w with calls := w.calls ++
    [PageCall.mk false page ofs len (read_page_length ofs len)] } : World σ) = w₀ at h
  have hm₀ : w₀.mem = w.mem := by subst hw₀; rfl
  have hc₀ : w₀.calls = w.calls ++ [PageCall.mk false page ofs len (read_page_length ofs len)] := by
    subst hw₀; rfl
  have ht₀ : w₀.trace = w.trace := by subst hw₀; rfl
  obtain ⟨hm₁, hc₁, xa, ht₁, hxa⟩ := send_addr_effect P (u32 (u32 (page * W25Q128JV_PAGE_SIZE) + ofs))
    (w25q128jv_spi P W25Q128JV_FAST_READ (__w25q128jv_CS_ENABLE P w₀)).2
  obtain ⟨hc₂, hf₂, xd, ht₂, hxd, hrd⟩ := recv_loop_effect P pbuf (read_page_length ofs len) _ _ rfl
  subst h
  refine ⟨?_, ?_, (W25Q128JV_FAST_READ, (w25q128jv_spi P W25Q128JV_FAST_READ
      (__w25q128jv_CS_ENABLE P w₀)).1) :: (xa ++ (0, (w25q128jv_spi P 0 (send_addr P
        (u32 (u32 (page * W25Q128JV_PAGE_SIZE) + ofs))
        (w25q128jv_spi P W25Q128JV_FAST_READ (__w25q128jv_CS_ENABLE P w₀)).2)).1) :: xd), ?_, ?_, ?_⟩
  · rw [cs_disable_calls, hc₂, spi_calls, hc₁, spi_calls, cs_enable_calls, hc₀]
  · intro a ha
    rw [cs_disable_mem, hf₂ a ha, spi_mem, hm₁, spi_mem, cs_enable_mem, hm₀]
  · rw [cs_disable_trace, ht₂, spi_trace, ht₁, spi_trace, cs_enable_trace, ht₀]
    simp [render, render_txn, W25Q128JV_FAST_READ]
  · simp only [List.map_cons, List.map_append, hxa, hxd, page_addr]
  · rw [read_bytes_fast_read _ _ _ _ _ hxa, hrd, place_range]
    rfl

/-- Effect of the `do ... while` loop of the sector and block readers, entered
with a positive remaining length `len` and an in-page offset below the page
size: with `n` iterations allowed and `ofs + len ≤ 256 * n` it returns; the
calls made are `span_calls`; the new events are whole transactions, whose data
spans are those of the calls; RAM changes at `pbuf[0..len)` only, where the
bytes received for consecutive addresses are stored. -/
theorem read_pages_effect (P : Port σ) (n : Nat) :
    ∀ (pbuf rpage len ofs : Nat) (w : World σ), ofs < 256 → 0 < len → len < 2147483648 →
      ofs + len ≤ 256 * n →
      ∃ (w' : World σ) (T : List Txn),
        read_pages P n pbuf rpage (len : Int) ofs w = some w' ∧
        w'.calls = w.calls ++ span_calls false n rpage ofs len ∧
        w'.trace = w.trace ++ render T ∧
        T.filterMap data_span = (span_calls false n rpage ofs len).map call_span ∧
        (∀ a, (a < pbuf ∨ pbuf + len ≤ a) → w'.mem a = w.mem a) ∧
        (rpage * 256 + ofs + len ≤ 16777216 →
          T.flatMap read_bytes
            = (List.range len).map (fun k => (rpage * 256 + ofs + k, w'.mem (pbuf + k)))) := by
  induction n with
  | zero => intro _ _ len ofs _ _ h₁ _ h₂; omega
  | succ n ih =>
    intro pbuf rpage len ofs w ho hl hlb hn
    obtain ⟨hc₁, hf₁, x, ht₁, hx, hr₁⟩ := read_page_effect P pbuf rpage ofs len w _ rfl
    have hcount : read_page_length ofs len = min len (256 - ofs) := read_page_length_eq ofs len ho hl
    rw [hcount] at hc₁ hf₁ hx hr₁
    have hspan : [x].filterMap data_span
        = [(page_addr rpage ofs % 16777216, min len (256 - ofs))] := by
      simp only [List.filterMap_cons, List.filterMap_nil, data_span_fast_read x _ _ hx]
    unfold read_pages
    simp only []
    rw [sub32_page ofs (by omega), i32_step len (256 - ofs) hlb (by omega),
      u32_of_i32_nat len (by omega)]
    generalize w25q128jv_read_page P pbuf rpage ofs len w = w₁ at hc₁ hf₁ ht₁ hr₁
    by_cases hmore : 256 - ofs < len
    · have hcast : ((len : Int) - ((256 - ofs : Nat) : Int)) = ((len - (256 - ofs) : Nat) : Int) := by
        omega
      rw [if_pos (by omega), hcast]
      obtain ⟨w', T, hw', hc', ht', hs', hf', hp'⟩ :=
        ih (pbuf + (256 - ofs)) (u32 (rpage + 1)) (len - (256 - ofs)) 0 w₁ (by omega) (by omega)
          (by omega) (by omega)
      have hmin : min len (256 - ofs) = 256 - ofs := by omega
      rw [hmin] at hf₁ hr₁
      refine ⟨w', [x] ++ T, hw', ?_, ?_, ?_, ?_, ?_⟩
      · rw [hc', hc₁]
        simp [span_calls, hmore]
      · rw [ht', ht₁, render_append]; simp
      · rw [List.filterMap_append, hspan, hs']
        simp [span_calls, hmore, call_span]
      · intro a ha
        rw [hf' a (by omega), hf₁ a (by omega)]
      · intro hrange
        have hpa : page_addr rpage ofs % 16777216 = rpage * 256 + ofs := by
          unfold page_addr u32 W25Q128JV_PAGE_SIZE; omega
        have hu : u32 (rpage + 1) = rpage + 1 := by unfold u32; omega
        rw [hu] at hp'
        rw [List.flatMap_append, hp' (by omega)]
        simp only [List.flatMap_cons, List.flatMap_nil, List.append_nil, hr₁, hpa]
        have hlen : len = (256 - ofs) + (len - (256 - ofs)) := by omega
        conv_rhs => rw [hlen, range_map_split]
        have hhead : (List.range (256 - ofs)).map (fun i => (rpage * 256 + ofs + i, w₁.mem (pbuf + i)))
            = (List.range (256 - ofs)).map (fun i => (rpage * 256 + ofs + i, w'.mem (pbuf + i))) := by
          apply List.map_congr_left
          intro i hi
          have := List.mem_range.mp hi
          rw [hf' (pbuf + i) (by omega)]
        have htail : (List.range (len - (256 - ofs))).map
              (fun k => ((rpage + 1) * 256 + 0 + k, w'.mem (pbuf + (256 - ofs) + k)))
            = (List.range (len - (256 - ofs))).map
              (fun k => (rpage * 256 + ofs + (256 - ofs + k), w'.mem (pbuf + (256 - ofs + k)))) := by
          apply List.map_congr_left
          intro k _
          have e₁ : (rpage + 1) * 256 + 0 + k = rpage * 256 + ofs + (256 - ofs + k) := by omega
          have e₂ : pbuf + (256 - ofs) + k = pbuf + (256 - ofs + k) := by omega
          rw [e₁, e₂]
        rw [hhead, htail]
    · rw [if_neg (by omega)]
      have hmin : min len (256 - ofs) = len := by omega
      rw [hmin] at hf₁ hr₁
      refine ⟨w₁, [x], rfl, ?_, ht₁, ?_, hf₁, ?_⟩
      · rw [hc₁]
        simp [span_calls, hmore]
      · rw [hspan]
        simp [span_calls, hmore, call_span]
      · intro hrange
        have hpa : page_addr rpage ofs % 16777216 = rpage * 256 + ofs := by
          unfold page_addr u32 W25Q128JV_PAGE_SIZE; omega
        simp only [List.flatMap_cons, List.flatMap_nil, List.append_nil, hr₁, hpa]

/-- The entry `w25q128jv_write_block` with an offset inside the block is the
write loop entered at page `w25q128jv_sector2page block_num + offset / 256`. -/
theorem write_block_eq (P : Port σ) (fuel pbuf b offset length : Nat) (w : World σ)
    (ho : offset < 65536) :
    w25q128jv_write_block P fuel pbuf b offset length w
      = write_pages P fuel fuel pbuf (u32 (w25q128jv_sector2page b + offset / 256))
          ((effective_length 65536 offset length : Nat) : Int) (offset % 256) w := by
  unfold w25q128jv_write_block
  simp only [W25Q128JV_BLOCK_SIZE, W25Q128JV_PAGE_SIZE, ge_iff_le]
  rw [if_neg (by omega)]
  congr 1
  unfold effective_length u32 sub32 i32_of_u32
  split <;> split <;> split <;> split <;> omega

/-- The entry `w25q128jv_read_sector` with an offset inside the sector is the
read loop entered at page `16 * sector_num + offset / 256`. -/
theorem read_sector_eq (P : Port σ) (fuel pbuf s offset length : Nat) (w : World σ)
    (ho : offset < 4096) :
    w25q128jv_read_sector P fuel pbuf s offset length w
      = read_pages P fuel pbuf (u32 (w25q128jv_sector2page s + offset / 256))
          ((effective_length 4096 offset length : Nat) : Int) (offset % 256) w := by
  unfold w25q128jv_read_sector
  simp only [W25Q128JV_SECTOR_SIZE, W25Q128JV_PAGE_SIZE, ge_iff_le]
  rw [if_neg (by omega)]
  congr 1
  unfold effective_length u32 sub32 i32_of_u32
  split <;> split <;> split <;> split <;> omega

/-- The entry `w25q128jv_read_block` with an offset inside the block is the read
loop entered at page `256 * block_num + offset / 256`. -/
theorem read_block_eq (P : Port σ) (fuel pbuf b offset length : Nat) (w : World σ)
    (ho : offset < 65536) :
    w25q128jv_read_block P fuel pbuf b offset length w
      = read_pages P fuel pbuf (u32 (w25q128jv_block2page b + offset / 256))
          ((effective_length 65536 offset length : Nat) : Int) (offset % 256) w := by
  unfold w25q128jv_read_block
  simp only [W25Q128JV_BLOCK_SIZE, W25Q128JV_PAGE_SIZE, ge_iff_le]
  rw [if_neg (by omega)]
  congr 1
  unfold effective_length u32 sub32 i32_of_u32
  split <;> split <;> split <;> split <;> omega

theorem sector2page_small (s : Nat) (hs : s < 1048576) : w25q128jv_sector2page s = 16 * s := by
  unfold w25q128jv_sector2page u32 W25Q128JV_SECTOR_SIZE W25Q128JV_PAGE_SIZE
  omega

theorem span_calls_ok (wr : Bool) (n : Nat) :
    ∀ (page ofs len : Nat), ofs < 256 → 0 < len →
      ∀ c ∈ span_calls wr n page ofs len,
        c.offset < 256 ∧ 1 ≤ c.count ∧ c.offset + c.count ≤ 256 := by
  induction n with
  | zero => intro _ _ _ _ _ c hc; simp [span_calls] at hc
  | succ n ih =>
    intro page ofs len ho hl c hc
    simp only [span_calls, List.mem_cons] at hc
    rcases hc with rfl | hc
    · simp only; omega
    · split at hc
      · exact ih _ 0 _ (by omega) (by omega) c hc
      · simp at hc

theorem call_span_ok (c : PageCall) (h : c.offset < 256 ∧ 1 ≤ c.count ∧ c.offset + c.count ≤ 256) :
    1 ≤ (call_span c).2 ∧ (call_span c).1 % 256 + (call_span c).2 ≤ 256 := by
  unfold call_span page_addr u32 W25Q128JV_PAGE_SIZE
  simp only
  omega

theorem page_safe_of_span (wr : Bool) (n page ofs len : Nat) (ho : ofs < 256) (hl : 0 < len)
    (r : Option (World σ)) (w' : World σ) (T : List Txn) (hr : r = some w')
    (hc : w'.calls = span_calls wr n page ofs len) (ht : w'.trace = render T)
    (hs : T.filterMap data_span = (span_calls wr n page ofs len).map call_span) :
    PageSafe r := by
  have hok := span_calls_ok wr n page ofs len ho hl
  refine ⟨w', hr, by rw [hc]; exact hok, by rw [ht, transactions_render, hs, hc], ?_⟩
  intro x hx a k hxs
  rw [ht, transactions_render] at hx
  have hmem : (a, k) ∈ T.filterMap data_span := List.mem_filterMap.mpr ⟨x, hx, hxs⟩
  rw [hs] at hmem
  obtain ⟨c, hcm, hce⟩ := List.mem_map.mp hmem
  have := call_span_ok c (hok c hcm)
  rw [hce] at this
  exact this

/-! The claims -/

/-- C1. On a device whose busy flag clears, `w25q128jv_write_sector` on sector
`s < 512` at `offset < 4096` returns, and the bytes of its page-program
transactions, in issue order and each with its device address (the 24-bit start
address of its transaction plus its index in the payload), are exactly
`pbuf[k]` at address `s * 4096 + offset + k` for `k` below the effective
length `E = min(L', 4096 - offset)`. -/
theorem write_sector_programs (P : Port σ) (fuel : Nat) (hb : BusyClears P fuel)
    (hf : 16 ≤ fuel) (pbuf s offset length : Nat) (d : σ) (mem : Nat → Nat)
    (hs : s < 512) (ho : offset < 4096) :
    ∃ w', w25q128jv_write_sector P fuel pbuf s offset length (World.init d mem) = some w' ∧
      programmed w'.trace
        = (List.range (effective_length 4096 offset length)).map
            (fun k => (s * 4096 + offset + k, mem (pbuf + k) % 256)) := by
  have hE := effective_length_pos 4096 offset length ho
  have hE' := effective_length_le 4096 offset length
  rw [write_sector_eq P fuel pbuf s offset length _ ho, sector2page_small s (by omega)]
  have hu : u32 (16 * s + offset / 256) = 16 * s + offset / 256 := by unfold u32; omega
  rw [hu]
  obtain ⟨w', T, hw', _, _, ht, _, hp⟩ :=
    write_pages_effect P fuel hb fuel pbuf (16 * s + offset / 256)
      (effective_length 4096 offset length) (offset % 256) (World.init d mem)
      (by omega) hE (by omega) (by omega)
  refine ⟨w', hw', ?_⟩
  have ht' : w'.trace = render T := by rw [ht]; rfl
  have ha : (16 * s + offset / 256) * 256 + offset % 256 = s * 4096 + offset := by omega
  rw [programmed, ht', transactions_render, hp (by omega), ha]
  rfl

/-- C1, at a concrete input. -/
theorem write_sector_programs_witness :
    BusyClears idle_port 16 ∧ 16 ≤ 16 ∧ 3 < 512 ∧ 200 < 4096 ∧
    ∃ w', w25q128jv_write_sector idle_port 16 1000 3 200 300
        (World.init () (fun a => a % 251)) = some w' ∧
      programmed w'.trace
        = (List.range (effective_length 4096 200 300)).map
            (fun k => (3 * 4096 + 200 + k, (fun a => a % 251) (1000 + k) % 256)) :=
  ⟨idle_busy_clears 15, by decide, by decide, by decide,
    write_sector_programs idle_port 16 (idle_busy_clears 15) (by decide) 1000 3 200 300 ()
      (fun a => a % 251) (by decide) (by decide)⟩

/-- C2. On a device whose busy flag clears, for every unit number, every offset
below the unit size and every length, the four sector- and block-level
functions respect the page boundaries (`PageSafe`): every page-level call has
an in-page offset below 256 and transfers `n` data bytes with `1 ≤ n` and
`offset + n ≤ 256`, and so does every page-program and fast-read transaction
of the trace. -/
theorem span_calls_within_page (P : Port σ) (fuel : Nat) (hb : BusyClears P fuel)
    (hf : 256 ≤ fuel) (pbuf s so b bo length : Nat) (d : σ) (mem : Nat → Nat)
    (hso : so < 4096) (hbo : bo < 65536) :
    PageSafe (w25q128jv_write_sector P fuel pbuf s so length (World.init d mem)) ∧
    PageSafe (w25q128jv_read_sector P fuel pbuf s so length (World.init d mem)) ∧
    PageSafe (w25q128jv_write_block P fuel pbuf b bo length (World.init d mem)) ∧
    PageSafe (w25q128jv_read_block P fuel pbuf b bo length (World.init d mem)) := by
  have hS := effective_length_pos 4096 so length hso
  have hS' := effective_length_le 4096 so length
  have hB := effective_length_pos 65536 bo length hbo
  have hB' := effective_length_le 65536 bo length
  refine ⟨?_, ?_, ?_, ?_⟩
  · obtain ⟨w', T, hw', _, hc, ht, hs, _⟩ :=
      write_pages_effect P fuel hb fuel pbuf (u32 (w25q128jv_sector2page s + so / 256))
        (effective_length 4096 so length) (so % 256) (World.init d mem)
        (by omega) hS (by omega) (by omega)
    exact page_safe_of_span true fuel _ _ _ (by omega) hS _ w' T
      (by rw [write_sector_eq P fuel pbuf s so length _ hso]; exact hw')
      (by rw [hc]; rfl) (by rw [ht]; rfl) hs
  · obtain ⟨w', T, hw', hc, ht, hs, _, _⟩ :=
      read_pages_effect P fuel pbuf (u32 (w25q128jv_sector2page s + so / 256))
        (effective_length 4096 so length) (so % 256) (World.init d mem)
        (by omega) hS (by omega) (by omega)
    exact page_safe_of_span false fuel _ _ _ (by omega) hS _ w' T
      (by rw [read_sector_eq P fuel pbuf s so length _ hso]; exact hw')
      (by rw [hc]; rfl) (by rw [ht]; rfl) hs
  · obtain ⟨w', T, hw', _, hc, ht, hs, _⟩ :=
      write_pages_effect P fuel hb fuel pbuf (u32 (w25q128jv_sector2page b + bo / 256))
        (effective_length 65536 bo length) (bo % 256) (World.init d mem)
        (by omega) hB (by omega) (by omega)
    exact page_safe_of_span true fuel _ _ _ (by omega) hB _ w' T
      (by rw [write_block_eq P fuel pbuf b bo length _ hbo]; exact hw')
      (by rw [hc]; rfl) (by rw [ht]; rfl) hs
  · obtain ⟨w', T, hw', hc, ht, hs, _, _⟩ :=
      read_pages_effect P fuel pbuf (u32 (w25q128jv_block2page b + bo / 256))
        (effective_length 65536 bo length) (bo % 256) (World.init d mem)
        (by omega) hB (by omega) (by omega)
    exact page_safe_of_span false fuel _ _ _ (by omega) hB _ w' T
      (by rw [read_block_eq P fuel pbuf b bo length _ hbo]; exact hw')
      (by rw [hc]; rfl) (by rw [ht]; rfl) hs

/-- C2, at a concrete input. -/
theorem span_calls_within_page_witness :
    BusyClears idle_port 256 ∧ 256 ≤ 256 ∧ 200 < 4096 ∧ 65000 < 65536 ∧
    PageSafe (w25q128jv_write_sector idle_port 256 0 7 200 300 (World.init () (fun _ => 0))) ∧
    PageSafe (w25q128jv_read_sector idle_port 256 0 7 200 300 (World.init () (fun _ => 0))) ∧
    PageSafe (w25q128jv_write_block idle_port 256 0 2 65000 300 (World.init () (fun _ => 0))) ∧
    PageSafe (w25q128jv_read_block idle_port 256 0 2 65000 300 (World.init () (fun _ => 0))) :=
  ⟨idle_busy_clears 255, by decide, by decide, by decide,
    span_calls_within_page idle_port 256 (idle_busy_clears 255) (by decide) 0 7 200 2 65000 300 ()
      (fun _ => 0) (by decide) (by decide)⟩

/-- C4. For sector `s < 512` and `offset < 4096`, `w25q128jv_read_sector` returns;
the bytes its fast-read transactions receive, each with its device address,
are exactly the final `pbuf[k]` at address `s * 4096 + offset + k` for `k`
below the effective length `E`; and no RAM cell outside `pbuf[0..E)` changes. -/
theorem read_sector_stores (P : Port σ) (fuel : Nat) (hf : 16 ≤ fuel)
    (pbuf s offset length : Nat) (d : σ) (mem : Nat → Nat) (hs : s < 512) (ho : offset < 4096) :
    ∃ w', w25q128jv_read_sector P fuel pbuf s offset length (World.init d mem) = some w' ∧
      read_back w'.trace
        = (List.range (effective_length 4096 offset length)).map
            (fun k => (s * 4096 + offset + k, w'.mem (pbuf + k))) ∧
      ∀ a, (a < pbuf ∨ pbuf + effective_length 4096 offset length ≤ a) → w'.mem a = mem a := by
  have hE := effective_length_pos 4096 offset length ho
  have hE' := effective_length_le 4096 offset length
  rw [read_sector_eq P fuel pbuf s offset length _ ho, sector2page_small s (by omega)]
  have hu : u32 (16 * s + offset / 256) = 16 * s + offset / 256 := by unfold u32; omega
  rw [hu]
  obtain ⟨w', T, hw', _, ht, _, hfr, hp⟩ :=
    read_pages_effect P fuel pbuf (16 * s + offset / 256)
      (effective_length 4096 offset length) (offset % 256) (World.init d mem)
      (by omega) hE (by omega) (by omega)
  refine ⟨w', hw', ?_, hfr⟩
  have ht' : w'.trace = render T := by rw [ht]; rfl
  have ha : (16 * s + offset / 256) * 256 + offset % 256 = s * 4096 + offset := by omega
  rw [read_back, ht', transactions_render, hp (by omega), ha]

/-- C4, at a concrete input. -/
theorem read_sector_stores_witness :
    16 ≤ 16 ∧ 3 < 512 ∧ 200 < 4096 ∧
    ∃ w', w25q128jv_read_sector idle_port 16 1000 3 200 300 (World.init () (fun _ => 7)) = some w' ∧
      read_back w'.trace
        = (List.range (effective_length 4096 200 300)).map
            (fun k => (3 * 4096 + 200 + k, w'.mem (1000 + k))) ∧
      ∀ a, (a < 1000 ∨ 1000 + effective_length 4096 200 300 ≤ a) → w'.mem a = (fun _ => 7) a :=
  ⟨by decide, by decide, by decide,
    read_sector_stores idle_port 16 (by decide) 1000 3 200 300 () (fun _ => 7) (by decide)
      (by decide)⟩

/-- C5. Clamp law: with a length of zero or above 4096, `w25q128jv_write_sector`
and `w25q128jv_read_sector` give the same result (same events, same RAM, same
device state, or both no result) as with length 4096. -/
theorem sector_clamp_law (P : Port σ) (fuel pbuf s offset length : Nat) (w : World σ)
    (h : length = 0 ∨ 4096 < length) :
    w25q128jv_write_sector P fuel pbuf s offset length w
      = w25q128jv_write_sector P fuel pbuf s offset 4096 w ∧
    w25q128jv_read_sector P fuel pbuf s offset length w
      = w25q128jv_read_sector P fuel pbuf s offset 4096 w := by
  have h₁ : (if length > W25Q128JV_SECTOR_SIZE ∨ length = 0 then W25Q128JV_SECTOR_SIZE else length)
      = 4096 := by
    rw [if_pos (by unfold W25Q128JV_SECTOR_SIZE; omega)]
  have h₂ : (if (4096 : Nat) > W25Q128JV_SECTOR_SIZE ∨ (4096 : Nat) = 0 then
      W25Q128JV_SECTOR_SIZE else 4096) = 4096 := by
    simp [W25Q128JV_SECTOR_SIZE]
  unfold w25q128jv_write_sector w25q128jv_read_sector
  simp only [h₁, h₂, and_self]

/-- C5, at the length of the example. -/
theorem sector_clamp_law_witness :
    ((999999 : Nat) = 0 ∨ 4096 < 999999) ∧
    w25q128jv_write_sector idle_port 16 0 5 0 999999 (World.init () (fun a => a))
      = w25q128jv_write_sector idle_port 16 0 5 0 4096 (World.init () (fun a => a)) ∧
    w25q128jv_read_sector idle_port 16 0 5 0 999999 (World.init () (fun a => a))
      = w25q128jv_read_sector idle_port 16 0 5 0 4096 (World.init () (fun a => a)) :=
  ⟨by decide, sector_clamp_law idle_port 16 0 5 0 999999 _ (by decide)⟩

/-- C6. No-op law: with an offset at or beyond the unit size the sector- and
block-level functions return the world they were given: no transport event,
no change of RAM, no page-level call. -/
theorem offset_guard_noop (P : Port σ) (fuel pbuf unit_num so bo length : Nat) (w : World σ)
    (hso : 4096 ≤ so) (hbo : 65536 ≤ bo) :
    w25q128jv_write_sector P fuel pbuf unit_num so length w = some w ∧
    w25q128jv_read_sector P fuel pbuf unit_num so length w = some w ∧
    w25q128jv_write_block P fuel pbuf unit_num bo length w = some w ∧
    w25q128jv_read_block P fuel pbuf unit_num bo length w = some w := by
  unfold w25q128jv_write_sector w25q128jv_read_sector w25q128jv_write_block w25q128jv_read_block
  simp only [W25Q128JV_SECTOR_SIZE, W25Q128JV_BLOCK_SIZE, ge_iff_le, if_pos hso, if_pos hbo,
    and_self]

/-- C6, at the offsets of the example. -/
theorem offset_guard_noop_witness :
    4096 ≤ 4096 ∧ 65536 ≤ 65536 ∧
    w25q128jv_write_sector idle_port 0 0 1 4096 17 (World.init () (fun a => a))
      = some (World.init () (fun a => a)) ∧
    w25q128jv_read_sector idle_port 0 0 1 4096 17 (World.init () (fun a => a))
      = some (World.init () (fun a => a)) ∧
    w25q128jv_write_block idle_port 0 0 1 65536 17 (World.init () (fun a => a))
      = some (World.init () (fun a => a)) ∧
    w25q128jv_read_block idle_port 0 0 1 65536 17 (World.init () (fun a => a))
      = some (World.init () (fun a => a)) :=
  ⟨by decide, by decide,
    offset_guard_noop idle_port 0 0 1 4096 65536 17 _ (by decide) (by decide)⟩

/-- The loop of `w25q128jv_read_UID` that clocks out dummy bytes and drops what
it receives. -/
theorem dummy_loop_effect (P : Port σ) (n : Nat) (w w' : World σ)
    (h : (List.range n).foldl (fun w _ => (w25q128jv_spi P W25Q128JV_DUMMY_BYTE w).2) w = w') :
    w'.mem = w.mem ∧ w'.calls = w.calls ∧
    ∃ x : Txn, w'.trace = w.trace ++ x.map to_event ∧ x.map Prod.fst = List.replicate n 0 := by
  induction n generalizing w' with
  | zero => cases h; exact ⟨rfl, rfl, [], by simp, rfl⟩
  | succ n ih =>
    obtain ⟨hm, hc, x, ht, hx⟩ := ih _ rfl
    simp only [List.range_succ, List.foldl_append, List.foldl_cons, List.foldl_nil] at h
    generalize (List.range n).foldl (fun w _ => (w25q128jv_spi P W25Q128JV_DUMMY_BYTE w).2) w = W
      at h hm hc ht
    subst h
    refine ⟨by simpa using hm, by simpa using hc,
      x ++ [(0, (w25q128jv_spi P W25Q128JV_DUMMY_BYTE W).1)], ?_, ?_⟩
    · rw [spi_trace, ht]; simp [W25Q128JV_DUMMY_BYTE]
    · simp [hx, List.replicate_succ']

/-- C10. The status `w25q128jv_read_UID` returns is `FAILED` (0) exactly when
`length ≠ 8`; then the world is returned as it was (no event, no store). With
`length = 8` it returns `SUCCESSED` (1) after appending one select-bracketed
transaction that sends `0x4B`, four dummy bytes and eight dummy bytes; the
bytes received for the last eight exchanges are the final `uid[0..7]`, in
order, and no other RAM cell changes. -/
theorem read_UID_contract (P : Port σ) (uid length : Nat) (w : World σ) :
    ((w25q128jv_read_UID P uid length w).1 = FAILED ↔ length ≠ 8) ∧
    (length ≠ 8 → w25q128jv_read_UID P uid length w = (FAILED, w)) ∧
    (w25q128jv_read_UID P uid 8 w).1 = SUCCESSED ∧
    ∃ x : Txn,
      (w25q128jv_read_UID P uid 8 w).2.trace = w.trace ++ render_txn x ∧
      x.map Prod.fst = W25Q128JV_READ_UNIQUE_ID :: (List.replicate 4 0 ++ List.replicate 8 0) ∧
      (x.map Prod.snd).drop 5
        = (List.range 8).map (fun i => (w25q128jv_read_UID P uid 8 w).2.mem (uid + i)) ∧
      ∀ a, (a < uid ∨ uid + 8 ≤ a) → (w25q128jv_read_UID P uid 8 w).2.mem a = w.mem a := by
  refine ⟨?_, ?_, ?_, ?_⟩
  · unfold w25q128jv_read_UID
    by_cases h : length = 8 <;> simp [h, FAILED, SUCCESSED]
  · intro h
    unfold w25q128jv_read_UID
    rw [if_pos h]
  · unfold w25q128jv_read_UID
    simp [SUCCESSED]
  · unfold w25q128jv_read_UID
    simp only [ne_eq, not_true_eq_false, if_false]
    obtain ⟨hm₁, _, x₁, ht₁, hx₁⟩ := dummy_loop_effect P 4
      (w25q128jv_spi P W25Q128JV_READ_UNIQUE_ID (__w25q128jv_CS_ENABLE P w)).2 _ rfl
    obtain ⟨_, hf₂, x₂, ht₂, hx₂, hr₂⟩ := recv_loop_effect P uid 8
      ((List.range 4).foldl (fun w _ => (w25q128jv_spi P W25Q128JV_DUMMY_BYTE w).2)
        (w25q128jv_spi P W25Q128JV_READ_UNIQUE_ID (__w25q128jv_CS_ENABLE P w)).2) _ rfl
    have hlen : x₁.length = 4 := by
      have := congrArg List.length hx₁
      simpa using this
    refine ⟨(W25Q128JV_READ_UNIQUE_ID, (w25q128jv_spi P W25Q128JV_READ_UNIQUE_ID
        (__w25q128jv_CS_ENABLE P w)).1) :: (x₁ ++ x₂), ?_, ?_, ?_, ?_⟩
    · rw [cs_disable_trace, ht₂, ht₁, spi_trace, cs_enable_trace]
      simp [render_txn, W25Q128JV_READ_UNIQUE_ID]
    · simp only [List.map_cons, List.map_append, hx₁, hx₂]
    · simp only [List.map_cons, List.map_append]
      rw [show (5 : Nat) = 4 + 1 from rfl, List.drop_succ_cons,
        List.drop_left' (by simpa using hlen), hr₂]
      rfl
    · intro a ha
      rw [cs_disable_mem, hf₂ a ha, hm₁, spi_mem, cs_enable_mem]

/-- C10, at the length of the example. -/
theorem read_UID_contract_witness :
    (7 : Nat) ≠ 8 ∧
    w25q128jv_read_UID idle_port 100 7 (World.init () (fun a => a))
      = (FAILED, World.init () (fun a => a)) :=
  ⟨by decide, (read_UID_contract idle_port 100 7 (World.init () (fun a => a))).2.1 (by decide)⟩

/-- One call of `w25q128jv_write_page` from a fresh world, on a device whose busy
flag clears: exactly one transaction of the trace carries data, the page
program, which starts at the low 24 bits of the page address and sends
`write_page_length offset length` bytes. -/
theorem write_page_data_span (P : Port σ) (fuel : Nat) (hb : BusyClears P fuel)
    (pbuf page ofs len : Nat) (d : σ) (mem : Nat → Nat) :
    ∃ w', w25q128jv_write_page P fuel pbuf page ofs len (World.init d mem) = some w' ∧
      (transactions w'.trace).filterMap data_span
        = [(page_addr page ofs % 16777216, write_page_length ofs len)] := by
  obtain ⟨w₁, hw₁, _, _, x₁, x₂, x₃, x₄, k₁, k₂, ht₁, hx₁, hx₂, _, hx₃, hx₄, _⟩ :=
    write_page_effect P fuel hb pbuf page ofs len (World.init d mem)
  refine ⟨w₁, hw₁, ?_⟩
  have ht : w₁.trace = render [x₁, x₂, x₃, x₄] := by rw [ht₁]; rfl
  rw [ht, transactions_render]
  simp only [List.filterMap_cons, List.filterMap_nil,
    data_span_other x₁ _ _ hx₁ (by decide) (by decide),
    data_span_other x₂ _ _ hx₂ (by decide) (by decide),
    data_span_other x₄ _ _ hx₄ (by decide) (by decide),
    data_span_program x₃ _ _ hx₃]
  simp

/-- One call of `w25q128jv_read_page` from a fresh world: the trace is one
fast-read transaction, which starts at the low 24 bits of the page address and
receives `read_page_length offset length` data bytes. -/
theorem read_page_data_span (P : Port σ) (pbuf page ofs len : Nat) (d : σ) (mem : Nat → Nat) :
    (transactions (w25q128jv_read_page P pbuf page ofs len (World.init d mem)).trace).filterMap
        data_span
      = [(page_addr page ofs % 16777216, read_page_length ofs len)] := by
  obtain ⟨_, _, x, ht₁, hx, _⟩ := read_page_effect P pbuf page ofs len (World.init d mem) _ rfl
  have ht : (w25q128jv_read_page P pbuf page ofs len (World.init d mem)).trace = render [x] := by
    rw [ht₁]; rfl
  rw [ht, transactions_render]
  simp only [List.filterMap_cons, List.filterMap_nil, data_span_fast_read x _ _ hx]

/-- C3, the code at block 1, offset 0, length 1: `w25q128jv_write_block` makes its
page-program call on page 16 and programs device address 4096, while
`w25q128jv_read_block` makes its page-read call on page 256 = block2page(1) and
reads device address 65536. -/
theorem write_block_page_cursor :
    (w25q128jv_write_block idle_port 1 0 1 0 1 (World.init () (fun _ => 0))).map
        (fun w => (w.calls, (transactions w.trace).filterMap data_span))
      = some ([PageCall.mk true 16 0 1 1], [(4096, 1)]) ∧
    (w25q128jv_read_block idle_port 1 0 1 0 1 (World.init () (fun _ => 0))).map
        (fun w => (w.calls, (transactions w.trace).filterMap data_span))
      = some ([PageCall.mk false 256 0 1 1], [(65536, 1)]) ∧
    w25q128jv_block2page 1 = 256 := by
  decide

/-- C7, the code at offset 256, length 1: `w25q128jv_write_page` issues a write
enable, a status poll, a page-program command with its address and a second
status poll; `w25q128jv_read_page` issues a fast-read command with its address
and dummy byte; and at offset 257 both normalise the length to 4294967295. -/
theorem page_offset_unguarded :
    (w25q128jv_write_page idle_port 1 0 0 256 1 (World.init () (fun _ => 0))).map
        (fun w => w.trace)
      = some [Event.cs_enable, Event.spi 6 0, Event.cs_disable,
          Event.cs_enable, Event.spi 5 0, Event.spi 0 0, Event.cs_disable,
          Event.cs_enable, Event.spi 2 0, Event.spi 0 0, Event.spi 1 0, Event.spi 0 0,
          Event.cs_disable,
          Event.cs_enable, Event.spi 5 0, Event.spi 0 0, Event.cs_disable] ∧
    (w25q128jv_read_page idle_port 0 0 256 1 (World.init () (fun _ => 0))).trace
      = [Event.cs_enable, Event.spi 11 0, Event.spi 0 0, Event.spi 1 0, Event.spi 0 0,
          Event.spi 0 0, Event.cs_disable] ∧
    write_page_length 257 1 = 4294967295 ∧ read_page_length 257 1 = 4294967295 := by
  decide

/-- C8, the code at offset 1, length 4294967295: the page-program transaction of
`w25q128jv_write_page` carries 4294967295 data bytes (the sum `length + offset`
wraps to 0, so neither `if` fires), while the fast-read transaction of
`w25q128jv_read_page` carries 255. -/
theorem write_page_length_wraps :
    (∃ w', w25q128jv_write_page idle_port 1 0 0 1 4294967295 (World.init () (fun _ => 0))
        = some w' ∧
      (transactions w'.trace).filterMap data_span = [(1, 4294967295)]) ∧
    (transactions (w25q128jv_read_page idle_port 0 0 1 4294967295
        (World.init () (fun _ => 0))).trace).filterMap data_span = [(1, 255)] := by
  constructor
  · exact write_page_data_span idle_port 1 (idle_busy_clears 0) 0 0 1 4294967295 () (fun _ => 0)
  · exact read_page_data_span idle_port 0 0 1 4294967295 () (fun _ => 0)

/-! Round trip through the flash device -/

theorem flash_wait_for_busy (n : Nat) (w : World Flash) :
    w25q128jv_wait_for_busy flash_port (n + 1) w
      = some { dev := { cells := w.dev.cells, selected := false, cmd := [] }
               mem := w.mem
               trace := w.trace ++ [Event.cs_enable, Event.spi 5 0, Event.spi 0 0,
                 Event.cs_disable]
               calls := w.calls } := by
  simp [w25q128jv_wait_for_busy, busy_poll, w25q128jv_spi, flash_port, Flash.exchange,
    __w25q128jv_CS_ENABLE, __w25q128jv_CS_DISABLE, W25Q128JV_READ_STATUS_REG1,
    W25Q128JV_DUMMY_BYTE]

theorem flash_busy_clears (n : Nat) : BusyClears flash_port (n + 1) := by
  intro w
  rw [flash_wait_for_busy]
  rfl

/-- The data loop of `w25q128jv_write_page` on the flash device, entered inside a
page-program transaction right after the address: byte `i` of the buffer is
stored in cell `start + i`. -/
theorem flash_send_loop (buf n a2 a1 a0 : Nat) (w W : World Flash)
    (hsel : w.dev.selected = true) (hcmd : w.dev.cmd = [W25Q128JV_PAGE_PROGRAM, a2, a1, a0])
    (h : (List.range n).foldl (fun w i => (w25q128jv_spi flash_port (w.mem (buf + i)) w).2) w = W) :
    W.mem = w.mem ∧ W.dev.selected = true ∧
    W.dev.cmd = W25Q128JV_PAGE_PROGRAM :: a2 :: a1 :: a0 ::
      (List.range n).map (fun i => w.mem (buf + i) % 256) ∧
    ∀ a, W.dev.cells a
      = if addr24 a2 a1 a0 ≤ a ∧ a < addr24 a2 a1 a0 + n then
          w.mem (buf + (a - addr24 a2 a1 a0)) % 256
        else w.dev.cells a := by
  induction n generalizing W with
  | zero =>
    cases h
    refine ⟨rfl, hsel, by simpa using hcmd, ?_⟩
    intro a
    rw [if_neg (by omega)]
    rfl
  | succ n ih =>
    obtain ⟨hm, hs, hc, hcells⟩ := ih _ rfl
    simp only [List.range_succ, List.foldl_append, List.foldl_cons, List.foldl_nil] at h
    generalize (List.range n).foldl
      (fun w i => (w25q128jv_spi flash_port (w.mem (buf + i)) w).2) w = V at h hm hs hc hcells
    subst h
    have hdev : (w25q128jv_spi flash_port (V.mem (buf + n)) V).2.dev
        = { V.dev with
            cmd := V.dev.cmd ++ [V.mem (buf + n) % 256]
            cells := Function.update V.dev.cells (addr24 a2 a1 a0 + n) (V.mem (buf + n) % 256) } := by
      simp [w25q128jv_spi, flash_port, Flash.exchange, hs, hc]
    refine ⟨by simpa using hm, by rw [hdev]; exact hs, ?_, ?_⟩
    · rw [hdev]
      simp [hc, hm, List.range_succ]
    · intro a
      rw [hdev]
      simp only []
      by_cases ha : a = addr24 a2 a1 a0 + n
      · subst ha
        rw [Function.update_same, if_pos (by omega), hm]
        congr 2
        omega
      · rw [Function.update_noteq ha, hcells a]
        by_cases hin : addr24 a2 a1 a0 ≤ a ∧ a < addr24 a2 a1 a0 + n
        · rw [if_pos hin, if_pos (by omega)]
        · rw [if_neg hin, if_neg (by omega)]

/-- The data loop of `w25q128jv_read_page` on the flash device, entered inside a
fast-read transaction right after the dummy byte: cell `start + i` is stored
at `out[i]`, and the cells do not change. -/
theorem flash_recv_loop (out n a2 a1 a0 dm : Nat) (w W : World Flash)
    (hsel : w.dev.selected = true) (hcmd : w.dev.cmd = [W25Q128JV_FAST_READ, a2, a1, a0, dm])
    (h : (List.range n).foldl
      (fun w i =>
        let r := w25q128jv_spi flash_port W25Q128JV_DUMMY_BYTE w
        { r.2 with mem := Function.update r.2.mem (out + i) r.1 }) w = W) :
    W.dev.cells = w.dev.cells ∧ W.dev.selected = true ∧
    W.dev.cmd = W25Q128JV_FAST_READ :: a2 :: a1 :: a0 :: dm :: List.replicate n 0 ∧
    ∀ i, i < n → W.mem (out + i) = w.dev.cells (addr24 a2 a1 a0 + i) % 256 := by
  induction n generalizing W with
  | zero =>
    cases h
    exact ⟨rfl, hsel, by simpa using hcmd, fun i hi => absurd hi (Nat.not_lt_zero i)⟩
  | succ n ih =>
    obtain ⟨hcl, hs, hc, hmem⟩ := ih _ rfl
    simp only [List.range_succ, List.foldl_append, List.foldl_cons, List.foldl_nil] at h
    generalize (List.range n).foldl
      (fun w i =>
        let r := w25q128jv_spi flash_port W25Q128JV_DUMMY_BYTE w
        { r.2 with mem := Function.update r.2.mem (out + i) r.1 }) w = V at h hcl hs hc hmem
    subst h
    have hstep : w25q128jv_spi flash_port W25Q128JV_DUMMY_BYTE V
        = (V.dev.cells (addr24 a2 a1 a0 + n) % 256,
            { V with dev := { V.dev with cmd := V.dev.cmd ++ [0] }
                     trace := V.trace ++ [Event.spi 0 (V.dev.cells (addr24 a2 a1 a0 + n) % 256)] }) := by
      simp [w25q128jv_spi, flash_port, Flash.exchange, hs, hc, W25Q128JV_DUMMY_BYTE,
        W25Q128JV_FAST_READ, W25Q128JV_PAGE_PROGRAM]
    rw [hstep]
    refine ⟨hcl, hs, ?_, ?_⟩
    · simp [hc, List.replicate_succ']
    · intro i hi
      simp only []
      by_cases hi' : i = n
      · subst hi'
        rw [Function.update_same, hcl]
      · have hne : out + i ≠ out + n := by omega
        rw [Function.update_noteq hne]
        exact hmem i (by omega)

/-- On the flash device `w25q128jv_write_page` returns, leaves RAM alone, and
leaves byte `i` of the buffer in the cell at the 24-bit page address plus `i`,
for every `i` below the number of bytes it sends. -/
theorem flash_write_page (f buf p ofs len : Nat) (w : World Flash) :
    ∃ w₁, w25q128jv_write_page flash_port (f + 1) buf p ofs len w = some w₁ ∧ w₁.mem = w.mem ∧
      ∀ i, i < write_page_length ofs len →
        w₁.dev.cells (page_addr p ofs % 16777216 + i) = w.mem (buf + i) % 256 := by
  unfold w25q128jv_write_page
  simp only [flash_wait_for_busy, Option.some_bind]
  generalize hw₃ : send_addr flash_port (u32 (u32 (p * W25Q128JV_PAGE_SIZE) + ofs))
    (w25q128jv_spi flash_port W25Q128JV_PAGE_PROGRAM (__w25q128jv_CS_ENABLE flash_port _)).2 = w₃
  have hdev : w₃.dev = Flash.mk w.dev.cells true
      [W25Q128JV_PAGE_PROGRAM, (page_addr p ofs &&& 0xFF0000) >>> 16 % 256,
        (page_addr p ofs &&& 0xFF00) >>> 8 % 256, (page_addr p ofs &&& 0xFF) % 256] := by
    subst hw₃
    simp [send_addr, w25q128jv_spi, flash_port, Flash.exchange, __w25q128jv_CS_ENABLE,
      w25q128jv_write_enable, __w25q128jv_CS_DISABLE, page_addr, W25Q128JV_PAGE_PROGRAM]
  have hmem : w₃.mem = w.mem := by subst hw₃; rfl
  obtain ⟨hm, _, _, hcells⟩ := flash_send_loop buf (write_page_length ofs len) _ _ _ w₃ _
    (by rw [hdev]) (by rw [hdev]) rfl
  refine ⟨_, rfl, ?_, ?_⟩
  · simp only [cs_disable_mem, hm, hmem]
  · intro i hi
    have := hcells (page_addr p ofs % 16777216 + i)
    rw [addr24_bytes, if_pos (by omega), hmem] at this
    simp only [Nat.add_sub_cancel_left] at this
    exact this

/-- On the flash device `w25q128jv_read_page` stores at `out[i]` the cell at the
24-bit page address plus `i`, for every `i` below the number of bytes it
reads. -/
theorem flash_read_page (out p ofs len : Nat) (w : World Flash) :
    ∀ i, i < read_page_length ofs len →
      (w25q128jv_read_page flash_port out p ofs len w).mem (out + i)
        = w.dev.cells (page_addr p ofs % 16777216 + i) % 256 := by
  unfold w25q128jv_read_page
  simp only []
  generalize hw₃ : (w25q128jv_spi flash_port 0
    (send_addr flash_port (u32 (u32 (p * W25Q128JV_PAGE_SIZE) + ofs))
      (w25q128jv_spi flash_port W25Q128JV_FAST_READ (__w25q128jv_CS_ENABLE flash_port _)).2)).2 = w₃
  have hdev : w₃.dev = Flash.mk w.dev.cells true
      [W25Q128JV_FAST_READ, (page_addr p ofs &&& 0xFF0000) >>> 16 % 256,
        (page_addr p ofs &&& 0xFF00) >>> 8 % 256, (page_addr p ofs &&& 0xFF) % 256, 0] := by
    subst hw₃
    simp [send_addr, w25q128jv_spi, flash_port, Flash.exchange, __w25q128jv_CS_ENABLE, page_addr,
      W25Q128JV_FAST_READ, W25Q128JV_PAGE_PROGRAM]
  obtain ⟨_, _, _, hmem⟩ := flash_recv_loop out (read_page_length ofs len) _ _ _ _ w₃ _
    (by rw [hdev]) (by rw [hdev]) rfl
  intro i hi
  rw [cs_disable_mem, hmem i hi, addr24_bytes, hdev]

/-- C9. Round-trip law on the flash device: for an offset below 256 and
`offset + length ≤ 256`, `w25q128jv_write_page(buf, p, offset, length)` returns
after sending `n` bytes, `n = length` or `256 - offset` when `length = 0`, and
a following `w25q128jv_read_page(out, p, offset, length)` leaves `out[i]` equal
to the byte `buf[i]` had before the write, for every `i < n`. -/
theorem page_round_trip (fuel buf out p offset length : Nat) (w : World Flash)
    (hf : 1 ≤ fuel) (ho : offset < 256) (hl : offset + length ≤ 256) :
    ∃ w₁, w25q128jv_write_page flash_port fuel buf p offset length w = some w₁ ∧
      write_page_length offset length = (if length = 0 then 256 - offset else length) ∧
      ∀ i, i < write_page_length offset length →
        (w25q128jv_read_page flash_port out p offset length w₁).mem (out + i)
          = w.mem (buf + i) % 256 := by
  obtain ⟨f, rfl⟩ : ∃ f, fuel = f + 1 := ⟨fuel - 1, by omega⟩
  obtain ⟨w₁, hw₁, _, hcells⟩ := flash_write_page f buf p offset length w
  have hn : write_page_length offset length = (if length = 0 then 256 - offset else length) := by
    unfold write_page_length u32 sub32 W25Q128JV_PAGE_SIZE
    simp only []
    split <;> split <;> split <;> omega
  have hr : read_page_length offset length = write_page_length offset length := by
    rw [hn]
    unfold read_page_length u32 sub32 W25Q128JV_PAGE_SIZE
    simp only []
    split <;> split <;> split <;> omega
  refine ⟨w₁, hw₁, hn, ?_⟩
  intro i hi
  rw [flash_read_page out p offset length w₁ i (by rw [hr]; exact hi), hcells i hi,
    Nat.mod_mod]

/-- C9, at a concrete input. -/
theorem page_round_trip_witness :
    1 ≤ 1 ∧ 10 < 256 ∧ 10 + 3 ≤ 256 ∧
    ∃ w₁, w25q128jv_write_page flash_port 1 100 5 10 3
        (World.init (Flash.mk (fun _ => 255) false []) (fun a => a)) = some w₁ ∧
      write_page_length 10 3 = (if 3 = 0 then 256 - 10 else 3) ∧
      ∀ i, i < write_page_length 10 3 →
        (w25q128jv_read_page flash_port 200 5 10 3 w₁).mem (200 + i)
          = (World.init (Flash.mk (fun _ => 255) false []) (fun a => a)).mem (100 + i) % 256 :=
  ⟨by decide, by decide, by decide,
    page_round_trip 1 100 200 5 10 3 _ (by decide) (by decide) (by decide)⟩

/-! Identification and geometry -/

theorem spi_lt (P : Port σ) (d : Nat) (w : World σ) : (w25q128jv_spi P d w).1 < 256 :=
  Nat.mod_lt _ (by decide)

theorem jedec_combine (m h l : Nat) (hm : m < 256) (hh : h < 256) (hl : l < 256) :
    u32 (m <<< 16) ||| u32 (h <<< 8) ||| l = m * 65536 + h * 256 + l := by
  have e₁ : u32 (m <<< 16) = 2 ^ 16 * m := by
    unfold u32; rw [Nat.shiftLeft_eq]; omega
  have e₂ : u32 (h <<< 8) = h * 256 := by
    unfold u32; rw [Nat.shiftLeft_eq]; omega
  have e₃ : 2 ^ 16 * m ||| h * 256 = 2 ^ 8 * (m * 256 + h) := by
    rw [← Nat.mul_add_lt_is_or (by omega) m]; omega
  rw [e₁, e₂, e₃, ← Nat.mul_add_lt_is_or (by omega) (m * 256 + h)]
  omega

theorem jedec_fields (m h l : Nat) (hm : m < 256) (hh : h < 256) (hl : l < 256) :
    ((m * 65536 + h * 256 + l) >>> 16) &&& 0xFF = m ∧
    ((m * 65536 + h * 256 + l) >>> 8) &&& 0xFF = h ∧
    (m * 65536 + h * 256 + l) &&& 0xFF = l := by
  have e : ∀ x : Nat, x &&& 0xFF = x % 256 := fun x => Nat.and_pow_two_sub_one_eq_mod x 8
  simp only [e, Nat.shiftRight_eq_div_pow]
  omega

/-- C11. The identifier `w25q128jv_read_JEDEC_ID` returns is `m*65536 + h*256 + l`
for the bytes `m`, `h`, `l` received, in this order, in the three dummy
exchanges that follow opcode `0x9F` in its one transaction; it is below `2^24`
and its three byte fields are `m`, `h` and `l`. On a bus that answers with
`r, m, h, l` the result is `m*65536 + h*256 + l`, and `0xEF4018` for
`0xEF, 0x40, 0x18`. -/
theorem read_JEDEC_ID_decode (P : Port σ) (w : World σ) (r m h l : Nat) (mem : Nat → Nat)
    (hm : m < 256) (hh : h < 256) (hl : l < 256) :
    (∃ r' m' h' l',
      (w25q128jv_read_JEDEC_ID P w).2.trace
        = w.trace ++ render_txn [(W25Q128JV_JEDEC_ID, r'), (0, m'), (0, h'), (0, l')] ∧
      (w25q128jv_read_JEDEC_ID P w).2.mem = w.mem ∧
      (w25q128jv_read_JEDEC_ID P w).1 = m' * 65536 + h' * 256 + l' ∧
      (w25q128jv_read_JEDEC_ID P w).1 < 16777216 ∧
      ((w25q128jv_read_JEDEC_ID P w).1 >>> 16) &&& 0xFF = m' ∧
      ((w25q128jv_read_JEDEC_ID P w).1 >>> 8) &&& 0xFF = h' ∧
      (w25q128jv_read_JEDEC_ID P w).1 &&& 0xFF = l') ∧
    (w25q128jv_read_JEDEC_ID script_port (World.init [r, m, h, l] mem)).1
      = m * 65536 + h * 256 + l ∧
    (w25q128jv_read_JEDEC_ID script_port (World.init [0, 0xEF, 0x40, 0x18] mem)).1 = 0xEF4018 := by
  refine ⟨?_, ?_, ?_⟩
  · have h₁ := spi_lt P W25Q128JV_DUMMY_BYTE
      (w25q128jv_spi P W25Q128JV_JEDEC_ID (__w25q128jv_CS_ENABLE P w)).2
    have h₂ := spi_lt P W25Q128JV_DUMMY_BYTE (w25q128jv_spi P W25Q128JV_DUMMY_BYTE
      (w25q128jv_spi P W25Q128JV_JEDEC_ID (__w25q128jv_CS_ENABLE P w)).2).2
    have h₃ := spi_lt P W25Q128JV_DUMMY_BYTE (w25q128jv_spi P W25Q128JV_DUMMY_BYTE
      (w25q128jv_spi P W25Q128JV_DUMMY_BYTE
        (w25q128jv_spi P W25Q128JV_JEDEC_ID (__w25q128jv_CS_ENABLE P w)).2).2).2
    have hid := jedec_combine _ _ _ h₁ h₂ h₃
    have hf := jedec_fields _ _ _ h₁ h₂ h₃
    refine ⟨(w25q128jv_spi P W25Q128JV_JEDEC_ID (__w25q128jv_CS_ENABLE P w)).1, _, _, _, ?_, rfl,
      hid, ?_, ?_, ?_, ?_⟩
    · simp [w25q128jv_read_JEDEC_ID, render_txn, W25Q128JV_JEDEC_ID, W25Q128JV_DUMMY_BYTE]
    · unfold w25q128jv_read_JEDEC_ID
      simp only []
      rw [hid]; omega
    · unfold w25q128jv_read_JEDEC_ID
      simp only []
      rw [hid]; exact hf.1
    · unfold w25q128jv_read_JEDEC_ID
      simp only []
      rw [hid]; exact hf.2.1
    · unfold w25q128jv_read_JEDEC_ID
      simp only []
      rw [hid]; exact hf.2.2
  · have e : (w25q128jv_read_JEDEC_ID script_port (World.init [r, m, h, l] mem)).1
        = u32 ((m % 256) <<< 16) ||| u32 ((h % 256) <<< 8) ||| (l % 256) := rfl
    rw [e, Nat.mod_eq_of_lt hm, Nat.mod_eq_of_lt hh, Nat.mod_eq_of_lt hl]
    exact jedec_combine m h l hm hh hl
  · have e : (w25q128jv_read_JEDEC_ID script_port (World.init [0, 0xEF, 0x40, 0x18] mem)).1
        = u32 ((0xEF % 256) <<< 16) ||| u32 ((0x40 % 256) <<< 8) ||| (0x18 % 256) := rfl
    rw [e]
    decide

/-- C11, at the bytes of the example. -/
theorem read_JEDEC_ID_decode_witness :
    0xEF < 256 ∧ 0x40 < 256 ∧ 0x18 < 256 ∧
    (w25q128jv_read_JEDEC_ID script_port (World.init [0, 0xEF, 0x40, 0x18] (fun _ => 0))).1
      = 0xEF * 65536 + 0x40 * 256 + 0x18 :=
  ⟨by decide, by decide, by decide,
    (read_JEDEC_ID_decode idle_port (World.init () (fun _ => 0)) 0 0xEF 0x40 0x18 (fun _ => 0)
      (by decide) (by decide) (by decide)).2.1⟩

/-- C13. For unit numbers inside the device (page below 8192, sector below 512,
block below 32) the six conversions are `p / 16`, `p / 256`, `s / 16`,
`16 * s`, `16 * b` and `256 * b`; and the five stated values hold. -/
theorem geometry_in_device (p s b : Nat) (hp : p < 8192) (hs : s < 512) (hb : b < 32) :
    w25q128jv_page2sector p = p / 16 ∧ w25q128jv_page2block p = p / 256 ∧
    w25q128jv_sector2block s = s / 16 ∧ w25q128jv_sector2page s = 16 * s ∧
    w25q128jv_block2sector b = 16 * b ∧ w25q128jv_block2page b = 256 * b ∧
    w25q128jv_page2sector 16 = 1 ∧ w25q128jv_page2sector 15 = 0 ∧
    w25q128jv_sector2page 1 = 16 ∧ w25q128jv_block2page 1 = 256 ∧
    w25q128jv_sector2block 16 = 1 := by
  unfold w25q128jv_page2sector w25q128jv_page2block w25q128jv_sector2block w25q128jv_sector2page
    w25q128jv_block2sector w25q128jv_block2page u32 W25Q128JV_PAGE_SIZE W25Q128JV_SECTOR_SIZE
    W25Q128JV_BLOCK_SIZE
  refine ⟨?_, ?_, ?_, ?_, ?_, ?_, ?_, ?_, ?_, ?_, ?_⟩ <;> omega

/-- C13, at a concrete input. -/
theorem geometry_in_device_witness :
    8191 < 8192 ∧ 511 < 512 ∧ 31 < 32 ∧
    w25q128jv_page2sector 8191 = 8191 / 16 ∧ w25q128jv_page2block 8191 = 8191 / 256 ∧
    w25q128jv_sector2block 511 = 511 / 16 ∧ w25q128jv_sector2page 511 = 16 * 511 ∧
    w25q128jv_block2sector 31 = 16 * 31 ∧ w25q128jv_block2page 31 = 256 * 31 ∧
    w25q128jv_page2sector 16 = 1 ∧ w25q128jv_page2sector 15 = 0 ∧
    w25q128jv_sector2page 1 = 16 ∧ w25q128jv_block2page 1 = 256 ∧
    w25q128jv_sector2block 16 = 1 :=
  ⟨by decide, by decide, by decide, geometry_in_device 8191 511 31 (by decide) (by decide)
    (by decide)⟩

/-- C18, as stated, fails: at page `2^24` the product `page_num * 256` wraps to
zero, so `w25q128jv_page2sector` and `w25q128jv_page2block` return 0 where the
formulas over the natural numbers give `2^20` and `2^16`; at sector `2^20` the
product `sector_num * 4096` wraps, so `w25q128jv_sector2page` returns 0 where
the formula gives `2^24`, which fits in 32 bits. -/
theorem geometry_floor_wraps :
    w25q128jv_page2sector 16777216 ≠ 16777216 * 256 / 4096 ∧
    w25q128jv_page2block 16777216 ≠ 16777216 * 256 / 65536 ∧
    w25q128jv_sector2page 1048576 ≠ (1048576 * 4096 / 256) % 4294967296 := by
  decide

/-- C18, amended. The conversions are total; for every page number below `2^24`
`w25q128jv_page2sector` and `w25q128jv_page2block` equal the floor formulas
over the natural numbers, and for every sector number below `2^20` so does
`w25q128jv_sector2page`; for every input each function is the quotient of the
product reduced modulo `2^32`. -/
theorem geometry_floor_bounded (p s : Nat) (hp : p < 16777216) (hs : s < 1048576) :
    w25q128jv_page2sector p = p * 256 / 4096 ∧
    w25q128jv_page2block p = p * 256 / 65536 ∧
    w25q128jv_sector2page s = (s * 4096 / 256) % 4294967296 ∧
    (∀ n, w25q128jv_page2sector n = (n * 256 % 4294967296) / 4096) ∧
    (∀ n, w25q128jv_page2block n = (n * 256 % 4294967296) / 65536) ∧
    (∀ n, w25q128jv_sector2page n = (n * 4096 % 4294967296) / 256) := by
  unfold w25q128jv_page2sector w25q128jv_page2block w25q128jv_sector2page u32
    W25Q128JV_PAGE_SIZE W25Q128JV_SECTOR_SIZE W25Q128JV_BLOCK_SIZE
  refine ⟨?_, ?_, ?_, fun _ => rfl, fun _ => rfl, fun _ => rfl⟩ <;> omega

/-- C18, amended, at the largest inputs it covers. -/
theorem geometry_floor_bounded_witness :
    16777215 < 16777216 ∧ 1048575 < 1048576 ∧
    w25q128jv_page2sector 16777215 = 16777215 * 256 / 4096 ∧
    w25q128jv_page2block 16777215 = 16777215 * 256 / 65536 ∧
    w25q128jv_sector2page 1048575 = (1048575 * 4096 / 256) % 4294967296 :=
  ⟨by decide, by decide,
    (geometry_floor_bounded 16777215 1048575 (by decide) (by decide)).1,
    (geometry_floor_bounded 16777215 1048575 (by decide) (by decide)).2.1,
    (geometry_floor_bounded 16777215 1048575 (by decide) (by decide)).2.2.1⟩

/-- C19. Inside the device, converting to the finer unit and back is the
identity (sector to page to sector, block to page to block, block to sector
to block); page to sector to page is not (page 15 comes back as 0), but it
returns the first page of the sector the page lies in:
`sector2page(page2sector(p)) ≤ p < sector2page(page2sector(p)) + 16`. -/
theorem geometry_inverse (p s b : Nat) (hp : p < 8192) (hs : s < 512) (hb : b < 32) :
    w25q128jv_page2sector (w25q128jv_sector2page s) = s ∧
    w25q128jv_page2block (w25q128jv_block2page b) = b ∧
    w25q128jv_sector2block (w25q128jv_block2sector b) = b ∧
    (15 < 8192 ∧ w25q128jv_sector2page (w25q128jv_page2sector 15) ≠ 15) ∧
    w25q128jv_sector2page (w25q128jv_page2sector p) ≤ p ∧
    p < w25q128jv_sector2page (w25q128jv_page2sector p) + 16 := by
  unfold w25q128jv_page2sector w25q128jv_page2block w25q128jv_sector2block w25q128jv_sector2page
    w25q128jv_block2sector w25q128jv_block2page u32 W25Q128JV_PAGE_SIZE W25Q128JV_SECTOR_SIZE
    W25Q128JV_BLOCK_SIZE
  refine ⟨?_, ?_, ?_, ⟨?_, ?_⟩, ?_, ?_⟩ <;> omega

/-- C19, at a concrete input. -/
theorem geometry_inverse_witness :
    8191 < 8192 ∧ 511 < 512 ∧ 31 < 32 ∧
    w25q128jv_page2sector (w25q128jv_sector2page 511) = 511 ∧
    w25q128jv_page2block (w25q128jv_block2page 31) = 31 ∧
    w25q128jv_sector2block (w25q128jv_block2sector 31) = 31 ∧
    (15 < 8192 ∧ w25q128jv_sector2page (w25q128jv_page2sector 15) ≠ 15) ∧
    w25q128jv_sector2page (w25q128jv_page2sector 8191) ≤ 8191 ∧
    8191 < w25q128jv_sector2page (w25q128jv_page2sector 8191) + 16 :=
  ⟨by decide, by decide, by decide, geometry_inverse 8191 511 31 (by decide) (by decide)
    (by decide)⟩

/-! Erase and byte-program commands -/

/-- Shape shared by the erase functions and `w25q128jv_write_byte`: write enable,
wait, then one transaction whose exchanges are made by `body`, then wait. On a
device whose busy flag clears it returns, leaves RAM and the call log alone,
and appends four transactions: write enable, status poll, the command with the
bytes `txs`, status poll. -/
theorem command_effect (P : Port σ) (fuel : Nat) (hb : BusyClears P fuel)
    (body : World σ → World σ) (txs : List Nat)
    (hbody : ∀ w, (body w).mem = w.mem ∧ (body w).calls = w.calls ∧
      ∃ x : Txn, (body w).trace = w.trace ++ x.map to_event ∧ x.map Prod.fst = txs)
    (w : World σ) :
    ∃ w', (w25q128jv_wait_for_busy P fuel (w25q128jv_write_enable P w)).bind
        (fun w => w25q128jv_wait_for_busy P fuel
          (__w25q128jv_CS_DISABLE P (body (__w25q128jv_CS_ENABLE P w)))) = some w' ∧
      w'.mem = w.mem ∧ w'.calls = w.calls ∧
      ∃ (x₁ x₂ x₃ x₄ : Txn) (k₁ k₂ : Nat), w'.trace = w.trace ++ render [x₁, x₂, x₃, x₄] ∧
        x₁.map Prod.fst = [W25Q128JV_WRITE_ENABLE] ∧
        x₂.map Prod.fst = W25Q128JV_READ_STATUS_REG1 :: List.replicate k₁ 0 ∧ 1 ≤ k₁ ∧
        x₃.map Prod.fst = txs ∧
        x₄.map Prod.fst = W25Q128JV_READ_STATUS_REG1 :: List.replicate k₂ 0 ∧ 1 ≤ k₂ := by
  obtain ⟨hm₁, hc₁, x₁, ht₁, hx₁⟩ := write_enable_effect P w
  obtain ⟨w₂, hw₂, hm₂, hc₂, x₂, k₁, ht₂, hx₂, hk₁⟩ :=
    wait_for_busy_effect P fuel hb (w25q128jv_write_enable P w)
  rw [hw₂, Option.some_bind]
  obtain ⟨hm₃, hc₃, x₃, ht₃, hx₃⟩ := hbody (__w25q128jv_CS_ENABLE P w₂)
  obtain ⟨w₅, hw₅, hm₅, hc₅, x₄, k₂, ht₅, hx₄, hk₂⟩ := wait_for_busy_effect P fuel hb
    (__w25q128jv_CS_DISABLE P (body (__w25q128jv_CS_ENABLE P w₂)))
  refine ⟨w₅, hw₅, ?_, ?_, x₁, x₂, x₃, x₄, k₁, k₂, ?_, hx₁, hx₂, hk₁, hx₃, hx₄, hk₂⟩
  · rw [hm₅, cs_disable_mem, hm₃, cs_enable_mem, hm₂, hm₁]
  · rw [hc₅, cs_disable_calls, hc₃, cs_enable_calls, hc₂, hc₁]
  · rw [ht₅, cs_disable_trace, ht₃, cs_enable_trace, ht₂, ht₁]
    simp [render, render_txn]

theorem opcode_body (P : Port σ) (op : Nat) (hop : op < 256) (w : World σ) :
    (w25q128jv_spi P op w).2.mem = w.mem ∧ (w25q128jv_spi P op w).2.calls = w.calls ∧
    ∃ x : Txn, (w25q128jv_spi P op w).2.trace = w.trace ++ x.map to_event ∧
      x.map Prod.fst = [op] := by
  refine ⟨rfl, rfl, [(op, (w25q128jv_spi P op w).1)], ?_, rfl⟩
  simp [Nat.mod_eq_of_lt hop]

theorem opcode_addr_body (P : Port σ) (op a : Nat) (hop : op < 256) (w : World σ) :
    (send_addr P a (w25q128jv_spi P op w).2).mem = w.mem ∧
    (send_addr P a (w25q128jv_spi P op w).2).calls = w.calls ∧
    ∃ x : Txn, (send_addr P a (w25q128jv_spi P op w).2).trace = w.trace ++ x.map to_event ∧
      x.map Prod.fst = op :: addr_bytes a := by
  obtain ⟨hm, hc, xa, ht, hxa⟩ := send_addr_effect P a (w25q128jv_spi P op w).2
  refine ⟨by rw [hm]; rfl, by rw [hc]; rfl, (op, (w25q128jv_spi P op w).1) :: xa, ?_, ?_⟩
  · rw [ht]; simp [Nat.mod_eq_of_lt hop]
  · simp [hxa]

theorem erase_chip_effect (P : Port σ) (fuel : Nat) (hb : BusyClears P fuel) (w : World σ) :
    ∃ w', w25q128jv_erase_chip P fuel w = some w' ∧ w'.mem = w.mem ∧ w'.calls = w.calls ∧
      ∃ (x₁ x₂ x₃ x₄ : Txn) (k₁ k₂ : Nat), w'.trace = w.trace ++ render [x₁, x₂, x₃, x₄] ∧
        x₁.map Prod.fst = [W25Q128JV_WRITE_ENABLE] ∧
        x₂.map Prod.fst = W25Q128JV_READ_STATUS_REG1 :: List.replicate k₁ 0 ∧ 1 ≤ k₁ ∧
        x₃.map Prod.fst = [W25Q128JV_CHIP_ERASE] ∧
        x₄.map Prod.fst = W25Q128JV_READ_STATUS_REG1 :: List.replicate k₂ 0 ∧ 1 ≤ k₂ :=
  command_effect P fuel hb (fun w => (w25q128jv_spi P W25Q128JV_CHIP_ERASE w).2)
    [W25Q128JV_CHIP_ERASE] (opcode_body P W25Q128JV_CHIP_ERASE (by decide)) w

theorem erase_sector_effect (P : Port σ) (fuel : Nat) (hb : BusyClears P fuel) (n : Nat)
    (w : World σ) :
    ∃ w', w25q128jv_erase_sector P fuel n w = some w' ∧ w'.mem = w.mem ∧ w'.calls = w.calls ∧
      ∃ (x₁ x₂ x₃ x₄ : Txn) (k₁ k₂ : Nat), w'.trace = w.trace ++ render [x₁, x₂, x₃, x₄] ∧
        x₁.map Prod.fst = [W25Q128JV_WRITE_ENABLE] ∧
        x₂.map Prod.fst = W25Q128JV_READ_STATUS_REG1 :: List.replicate k₁ 0 ∧ 1 ≤ k₁ ∧
        x₃.map Prod.fst
          = W25Q128JV_SECTOR_ERASE_4KB :: addr_bytes (u32 (n * W25Q128JV_SECTOR_SIZE)) ∧
        x₄.map Prod.fst = W25Q128JV_READ_STATUS_REG1 :: List.replicate k₂ 0 ∧ 1 ≤ k₂ :=
  command_effect P fuel hb
    (fun w => send_addr P (u32 (n * W25Q128JV_SECTOR_SIZE))
      (w25q128jv_spi P W25Q128JV_SECTOR_ERASE_4KB w).2)
    (W25Q128JV_SECTOR_ERASE_4KB :: addr_bytes (u32 (n * W25Q128JV_SECTOR_SIZE)))
    (opcode_addr_body P W25Q128JV_SECTOR_ERASE_4KB _ (by decide)) w

theorem erase_block_effect (P : Port σ) (fuel : Nat) (hb : BusyClears P fuel) (n : Nat)
    (w : World σ) :
    ∃ w', w25q128jv_erase_block P fuel n w = some w' ∧ w'.mem = w.mem ∧ w'.calls = w.calls ∧
      ∃ (x₁ x₂ x₃ x₄ : Txn) (k₁ k₂ : Nat), w'.trace = w.trace ++ render [x₁, x₂, x₃, x₄] ∧
        x₁.map Prod.fst = [W25Q128JV_WRITE_ENABLE] ∧
        x₂.map Prod.fst = W25Q128JV_READ_STATUS_REG1 :: List.replicate k₁ 0 ∧ 1 ≤ k₁ ∧
        x₃.map Prod.fst
          = W25Q128JV_BLOCK_ERASE_64KB :: addr_bytes (u32 (n * W25Q128JV_BLOCK_SIZE)) ∧
        x₄.map Prod.fst = W25Q128JV_READ_STATUS_REG1 :: List.replicate k₂ 0 ∧ 1 ≤ k₂ :=
  command_effect P fuel hb
    (fun w => send_addr P (u32 (n * W25Q128JV_BLOCK_SIZE))
      (w25q128jv_spi P W25Q128JV_BLOCK_ERASE_64KB w).2)
    (W25Q128JV_BLOCK_ERASE_64KB :: addr_bytes (u32 (n * W25Q128JV_BLOCK_SIZE)))
    (opcode_addr_body P W25Q128JV_BLOCK_ERASE_64KB _ (by decide)) w

theorem write_byte_body (P : Port σ) (b a : Nat) (w : World σ) :
    (w25q128jv_spi P b (send_addr P a (w25q128jv_spi P W25Q128JV_PAGE_PROGRAM w).2)).2.mem
      = w.mem ∧
    (w25q128jv_spi P b (send_addr P a (w25q128jv_spi P W25Q128JV_PAGE_PROGRAM w).2)).2.calls
      = w.calls ∧
    ∃ x : Txn,
      (w25q128jv_spi P b (send_addr P a (w25q128jv_spi P W25Q128JV_PAGE_PROGRAM w).2)).2.trace
        = w.trace ++ x.map to_event ∧
      x.map Prod.fst = W25Q128JV_PAGE_PROGRAM :: (addr_bytes a ++ [b % 256]) := by
  obtain ⟨hm, hc, x, ht, hx⟩ := opcode_addr_body P W25Q128JV_PAGE_PROGRAM a (by decide) w
  refine ⟨by rw [spi_mem, hm], by rw [spi_calls, hc],
    x ++ [(b % 256, (w25q128jv_spi P b
      (send_addr P a (w25q128jv_spi P W25Q128JV_PAGE_PROGRAM w).2)).1)], ?_, ?_⟩
  · rw [spi_trace, ht]; simp
  · simp [hx]

theorem write_byte_effect (P : Port σ) (fuel : Nat) (hb : BusyClears P fuel) (b a : Nat)
    (w : World σ) :
    ∃ w', w25q128jv_write_byte P fuel b a w = some w' ∧ w'.mem = w.mem ∧ w'.calls = w.calls ∧
      ∃ (x₁ x₂ x₃ x₄ : Txn) (k₁ k₂ : Nat), w'.trace = w.trace ++ render [x₁, x₂, x₃, x₄] ∧
        x₁.map Prod.fst = [W25Q128JV_WRITE_ENABLE] ∧
        x₂.map Prod.fst = W25Q128JV_READ_STATUS_REG1 :: List.replicate k₁ 0 ∧ 1 ≤ k₁ ∧
        x₃.map Prod.fst = W25Q128JV_PAGE_PROGRAM :: (addr_bytes a ++ [b % 256]) ∧
        x₄.map Prod.fst = W25Q128JV_READ_STATUS_REG1 :: List.replicate k₂ 0 ∧ 1 ≤ k₂ :=
  command_effect P fuel hb
    (fun w => (w25q128jv_spi P b (send_addr P a (w25q128jv_spi P W25Q128JV_PAGE_PROGRAM w).2)).2)
    (W25Q128JV_PAGE_PROGRAM :: (addr_bytes a ++ [b % 256])) (write_byte_body P b a) w

theorem init_trace_render (d : σ) (mem : Nat → Nat) (w' : World σ) (T : List Txn)
    (h : w'.trace = (World.init d mem).trace ++ render T) : w'.trace = render T := by
  rw [h]; rfl

theorem sent_of_four (t : List Event) (x₁ x₂ x₃ x₄ : Txn) (h : t = render [x₁, x₂, x₃, x₄]) :
    (transactions t).map (List.map Prod.fst)
      = [x₁.map Prod.fst, x₂.map Prod.fst, x₃.map Prod.fst, x₄.map Prod.fst] := by
  rw [h, transactions_render]; rfl

/-- C12. On a device whose busy flag clears, the bytes sent in the transactions
of `w25q128jv_erase_sector` (sector below 4096), `w25q128jv_erase_block` (block
below 256) and `w25q128jv_write_byte` (address below `2^24`) are: write enable;
a status poll; the command, which is exactly the opcode (`0x20`, `0xD8`,
`0x02`), three bytes `a2 a1 a0` with `a2*65536 + a1*256 + a0` equal to
`n*4096`, `n*65536` or the address, and for `w25q128jv_write_byte` the data
byte; a status poll. -/
theorem command_encoding (P : Port σ) (fuel : Nat) (hb : BusyClears P fuel)
    (ns nb a b : Nat) (d : σ) (mem : Nat → Nat)
    (hs : ns < 4096) (hbk : nb < 256) (ha : a < 16777216) :
    (∃ w' k₁ k₂ a2 a1 a0, w25q128jv_erase_sector P fuel ns (World.init d mem) = some w' ∧
      (transactions w'.trace).map (List.map Prod.fst)
        = [[0x06], 0x05 :: List.replicate k₁ 0, [0x20, a2, a1, a0],
            0x05 :: List.replicate k₂ 0] ∧
      a2 < 256 ∧ a1 < 256 ∧ a0 < 256 ∧ a2 * 65536 + a1 * 256 + a0 = ns * 4096) ∧
    (∃ w' k₁ k₂ a2 a1 a0, w25q128jv_erase_block P fuel nb (World.init d mem) = some w' ∧
      (transactions w'.trace).map (List.map Prod.fst)
        = [[0x06], 0x05 :: List.replicate k₁ 0, [0xD8, a2, a1, a0],
            0x05 :: List.replicate k₂ 0] ∧
      a2 < 256 ∧ a1 < 256 ∧ a0 < 256 ∧ a2 * 65536 + a1 * 256 + a0 = nb * 65536) ∧
    (∃ w' k₁ k₂ a2 a1 a0, w25q128jv_write_byte P fuel b a (World.init d mem) = some w' ∧
      (transactions w'.trace).map (List.map Prod.fst)
        = [[0x06], 0x05 :: List.replicate k₁ 0, [0x02, a2, a1, a0, b % 256],
            0x05 :: List.replicate k₂ 0] ∧
      a2 < 256 ∧ a1 < 256 ∧ a0 < 256 ∧ a2 * 65536 + a1 * 256 + a0 = a) := by
  refine ⟨?_, ?_, ?_⟩
  · obtain ⟨w', hw', _, _, x₁, x₂, x₃, x₄, k₁, k₂, ht, hx₁, hx₂, _, hx₃, hx₄, _⟩ :=
      erase_sector_effect P fuel hb ns (World.init d mem)
    have hu : u32 (ns * W25Q128JV_SECTOR_SIZE) = ns * 4096 := by
      unfold u32 W25Q128JV_SECTOR_SIZE; omega
    refine ⟨w', k₁, k₂, ns * 4096 / 65536 % 256, ns * 4096 / 256 % 256, ns * 4096 % 256, hw',
      ?_, by omega, by omega, by omega, by omega⟩
    rw [sent_of_four _ _ _ _ _ (init_trace_render d mem w' _ ht), hx₁, hx₂, hx₃, hx₄, hu]
    rfl
  · obtain ⟨w', hw', _, _, x₁, x₂, x₃, x₄, k₁, k₂, ht, hx₁, hx₂, _, hx₃, hx₄, _⟩ :=
      erase_block_effect P fuel hb nb (World.init d mem)
    have hu : u32 (nb * W25Q128JV_BLOCK_SIZE) = nb * 65536 := by
      unfold u32 W25Q128JV_BLOCK_SIZE; omega
    refine ⟨w', k₁, k₂, nb * 65536 / 65536 % 256, nb * 65536 / 256 % 256, nb * 65536 % 256, hw',
      ?_, by omega, by omega, by omega, by omega⟩
    rw [sent_of_four _ _ _ _ _ (init_trace_render d mem w' _ ht), hx₁, hx₂, hx₃, hx₄, hu]
    rfl
  · obtain ⟨w', hw', _, _, x₁, x₂, x₃, x₄, k₁, k₂, ht, hx₁, hx₂, _, hx₃, hx₄, _⟩ :=
      write_byte_effect P fuel hb b a (World.init d mem)
    refine ⟨w', k₁, k₂, a / 65536 % 256, a / 256 % 256, a % 256, hw',
      ?_, by omega, by omega, by omega, by omega⟩
    rw [sent_of_four _ _ _ _ _ (init_trace_render d mem w' _ ht), hx₁, hx₂, hx₃, hx₄]
    rfl

/-- C12, at a concrete input. -/
theorem command_encoding_witness :
    BusyClears idle_port 1 ∧ 4095 < 4096 ∧ 255 < 256 ∧ 0x123456 < 16777216 ∧
    (∃ w' k₁ k₂ a2 a1 a0,
      w25q128jv_erase_sector idle_port 1 4095 (World.init () (fun _ => 0)) = some w' ∧
      (transactions w'.trace).map (List.map Prod.fst)
        = [[0x06], 0x05 :: List.replicate k₁ 0, [0x20, a2, a1, a0],
            0x05 :: List.replicate k₂ 0] ∧
      a2 < 256 ∧ a1 < 256 ∧ a0 < 256 ∧ a2 * 65536 + a1 * 256 + a0 = 4095 * 4096) ∧
    (∃ w' k₁ k₂ a2 a1 a0,
      w25q128jv_erase_block idle_port 1 255 (World.init () (fun _ => 0)) = some w' ∧
      (transactions w'.trace).map (List.map Prod.fst)
        = [[0x06], 0x05 :: List.replicate k₁ 0, [0xD8, a2, a1, a0],
            0x05 :: List.replicate k₂ 0] ∧
      a2 < 256 ∧ a1 < 256 ∧ a0 < 256 ∧ a2 * 65536 + a1 * 256 + a0 = 255 * 65536) ∧
    (∃ w' k₁ k₂ a2 a1 a0,
      w25q128jv_write_byte idle_port 1 0xAB 0x123456 (World.init () (fun _ => 0)) = some w' ∧
      (transactions w'.trace).map (List.map Prod.fst)
        = [[0x06], 0x05 :: List.replicate k₁ 0, [0x02, a2, a1, a0, 0xAB % 256],
            0x05 :: List.replicate k₂ 0] ∧
      a2 < 256 ∧ a1 < 256 ∧ a0 < 256 ∧ a2 * 65536 + a1 * 256 + a0 = 0x123456) :=
  ⟨idle_busy_clears 0, by decide, by decide, by decide,
    command_encoding idle_port 1 (idle_busy_clears 0) 4095 255 0x123456 0xAB () (fun _ => 0)
      (by decide) (by decide) (by decide)⟩

/-! Write enable before every command -/

theorem opcode_of_sent (x : Txn) (op : Nat) (l : List Nat) (h : x.map Prod.fst = op :: l) :
    opcode x = some op := by
  unfold opcode; rw [h]; rfl

theorem opcodes_of_four (x₁ x₂ x₃ x₄ : Txn) (c k₁ k₂ : Nat) (l : List Nat)
    (hx₁ : x₁.map Prod.fst = [W25Q128JV_WRITE_ENABLE])
    (hx₂ : x₂.map Prod.fst = W25Q128JV_READ_STATUS_REG1 :: List.replicate k₁ 0)
    (hx₃ : x₃.map Prod.fst = c :: l)
    (hx₄ : x₄.map Prod.fst = W25Q128JV_READ_STATUS_REG1 :: List.replicate k₂ 0) :
    [x₁, x₂, x₃, x₄].filterMap opcode = enabled_commands [c] := by
  simp only [List.filterMap_cons, List.filterMap_nil, opcode_of_sent _ _ _ hx₁,
    opcode_of_sent _ _ _ hx₂, opcode_of_sent _ _ _ hx₃, opcode_of_sent _ _ _ hx₄]
  rfl

theorem enabled_commands_cons (c : Nat) (cmds : List Nat) :
    enabled_commands (c :: cmds)
      = [W25Q128JV_WRITE_ENABLE, W25Q128JV_READ_STATUS_REG1, c, W25Q128JV_READ_STATUS_REG1]
        ++ enabled_commands cmds := by
  simp [enabled_commands]

theorem enabled_commands_counts (cmds : List Nat) (h : ∀ c ∈ cmds, is_command c = true) :
    (enabled_commands cmds).count W25Q128JV_WRITE_ENABLE = cmds.length ∧
    ((enabled_commands cmds).filter is_command).length = cmds.length := by
  induction cmds with
  | nil => simp [enabled_commands]
  | cons c cmds ih =>
    obtain ⟨ih₁, ih₂⟩ := ih (fun c' hc' => h c' (List.mem_cons_of_mem _ hc'))
    have hc : is_command c = true := h c (List.mem_cons_self _ _)
    have hne : c ≠ W25Q128JV_WRITE_ENABLE := by
      intro e; rw [e] at hc; exact absurd hc (by decide)
    have h6 : is_command W25Q128JV_WRITE_ENABLE = false := by decide
    have h5 : is_command W25Q128JV_READ_STATUS_REG1 = false := by decide
    rw [enabled_commands_cons]
    constructor
    · rw [List.count_append, ih₁]
      have : List.count W25Q128JV_WRITE_ENABLE
          [W25Q128JV_WRITE_ENABLE, W25Q128JV_READ_STATUS_REG1, c, W25Q128JV_READ_STATUS_REG1]
          = 1 := by
        simp [List.count_cons, hne]
      rw [this, List.length_cons]; omega
    · rw [List.filter_append, List.length_append, ih₂]
      have : List.filter is_command
          [W25Q128JV_WRITE_ENABLE, W25Q128JV_READ_STATUS_REG1, c, W25Q128JV_READ_STATUS_REG1]
          = [c] := by
        simp [List.filter_cons, h6, h5, hc]
      rw [this]; simp only [List.length_cons, List.length_nil]; omega

theorem write_enabled_of (r : Option (World σ)) (w' : World σ) (T : List Txn) (cmds : List Nat)
    (hr : r = some w') (ht : w'.trace = render T)
    (ho : T.filterMap opcode = enabled_commands cmds) (hc : ∀ c ∈ cmds, is_command c = true) :
    WriteEnabled r := by
  have hop : opcodes w'.trace = enabled_commands cmds := by
    unfold opcodes; rw [ht, transactions_render, ho]
  obtain ⟨h₁, h₂⟩ := enabled_commands_counts cmds hc
  exact ⟨w', cmds, hr, hc, hop, by rw [hop]; exact h₁, by rw [hop]; exact h₂⟩

/-- The opcodes of the transactions the write loop appends: write enable, status
poll, page program, status poll, once for every page-level call. -/
theorem write_pages_opcodes (P : Port σ) (fuel : Nat) (hb : BusyClears P fuel) (n : Nat) :
    ∀ (pbuf wpage len ofs : Nat) (w : World σ), ofs < 256 → 0 < len → len < 2147483648 →
      ofs + len ≤ 256 * n →
      ∃ (w' : World σ) (T : List Txn),
        write_pages P fuel n pbuf wpage (len : Int) ofs w = some w' ∧
        w'.trace = w.trace ++ render T ∧
        T.filterMap opcode
          = enabled_commands ((span_calls true n wpage ofs len).map
              (fun _ => W25Q128JV_PAGE_PROGRAM)) := by
  induction n with
  | zero => intro _ _ len ofs _ _ h₁ _ h₂; omega
  | succ n ih =>
    intro pbuf wpage len ofs w ho hl hlb hn
    obtain ⟨w₁, hw₁, _, _, x₁, x₂, x₃, x₄, k₁, k₂, ht₁, hx₁, hx₂, _, hx₃, hx₄, _⟩ :=
      write_page_effect P fuel hb pbuf wpage ofs len w
    have hop := opcodes_of_four x₁ x₂ x₃ x₄ _ k₁ k₂ _ hx₁ hx₂ hx₃ hx₄
    unfold write_pages
    simp only []
    rw [sub32_page ofs (by omega), i32_step len (256 - ofs) hlb (by omega),
      u32_of_i32_nat len (by omega), hw₁, Option.some_bind]
    by_cases hmore : 256 - ofs < len
    · have hcast : ((len : Int) - ((256 - ofs : Nat) : Int)) = ((len - (256 - ofs) : Nat) : Int) := by
        omega
      rw [if_pos (by omega), hcast]
      obtain ⟨w', T, hw', ht', ho'⟩ :=
        ih (pbuf + (256 - ofs)) (u32 (wpage + 1)) (len - (256 - ofs)) 0 w₁ (by omega) (by omega)
          (by omega) (by omega)
      refine ⟨w', [x₁, x₂, x₃, x₄] ++ T, hw', ?_, ?_⟩
      · rw [ht', ht₁, render_append]; simp
      · rw [List.filterMap_append, hop, ho']
        simp [span_calls, hmore, enabled_commands]
    · rw [if_neg (by omega)]
      refine ⟨w₁, [x₁, x₂, x₃, x₄], rfl, ht₁, ?_⟩
      rw [hop]
      simp [span_calls, hmore, enabled_commands]

theorem page_program_commands (l : List PageCall) :
    ∀ c ∈ l.map (fun _ => W25Q128JV_PAGE_PROGRAM), is_command c = true := by
  intro c hc
  obtain ⟨_, _, rfl⟩ := List.mem_map.mp hc
  decide

/-- C15. On a device whose busy flag clears, the opcodes of the transactions of
the seven program and erase functions are, for a list of program and erase
commands (`0x02`, `0x20`, `0xD8`, `0xC7`), each command preceded by its own
write enable `0x06` and one status poll `0x05` and followed by one status poll;
so the trace has as many write enables as commands (`WriteEnabled`). -/
theorem commands_write_enabled (P : Port σ) (fuel : Nat) (hb : BusyClears P fuel)
    (hf : 256 ≤ fuel) (pbuf unit_num offset length b a : Nat) (d : σ) (mem : Nat → Nat) :
    WriteEnabled (w25q128jv_write_sector P fuel pbuf unit_num offset length (World.init d mem)) ∧
    WriteEnabled (w25q128jv_write_block P fuel pbuf unit_num offset length (World.init d mem)) ∧
    WriteEnabled (w25q128jv_write_page P fuel pbuf unit_num offset length (World.init d mem)) ∧
    WriteEnabled (w25q128jv_write_byte P fuel b a (World.init d mem)) ∧
    WriteEnabled (w25q128jv_erase_sector P fuel unit_num (World.init d mem)) ∧
    WriteEnabled (w25q128jv_erase_block P fuel unit_num (World.init d mem)) ∧
    WriteEnabled (w25q128jv_erase_chip P fuel (World.init d mem)) := by
  refine ⟨?_, ?_, ?_, ?_, ?_, ?_, ?_⟩
  · by_cases ho : offset < 4096
    · have hE := effective_length_pos 4096 offset length ho
      have hE' := effective_length_le 4096 offset length
      obtain ⟨w', T, hw', ht, hop⟩ :=
        write_pages_opcodes P fuel hb fuel pbuf (u32 (w25q128jv_sector2page unit_num + offset / 256))
          (effective_length 4096 offset length) (offset % 256) (World.init d mem)
          (by omega) hE (by omega) (by omega)
      exact write_enabled_of _ w' T _
        (by rw [write_sector_eq P fuel pbuf unit_num offset length _ ho]; exact hw')
        (init_trace_render d mem w' T ht) hop (page_program_commands _)
    · exact write_enabled_of _ (World.init d mem) [] []
        (by unfold w25q128jv_write_sector
            simp only [W25Q128JV_SECTOR_SIZE, ge_iff_le]
            rw [if_pos (by omega)])
        rfl rfl (by simp)
  · by_cases ho : offset < 65536
    · have hE := effective_length_pos 65536 offset length ho
      have hE' := effective_length_le 65536 offset length
      obtain ⟨w', T, hw', ht, hop⟩ :=
        write_pages_opcodes P fuel hb fuel pbuf (u32 (w25q128jv_sector2page unit_num + offset / 256))
          (effective_length 65536 offset length) (offset % 256) (World.init d mem)
          (by omega) hE (by omega) (by omega)
      exact write_enabled_of _ w' T _
        (by rw [write_block_eq P fuel pbuf unit_num offset length _ ho]; exact hw')
        (init_trace_render d mem w' T ht) hop (page_program_commands _)
    · exact write_enabled_of _ (World.init d mem) [] []
        (by unfold w25q128jv_write_block
            simp only [W25Q128JV_BLOCK_SIZE, ge_iff_le]
            rw [if_pos (by omega)])
        rfl rfl (by simp)
  · obtain ⟨w', hw', _, _, x₁, x₂, x₃, x₄, k₁, k₂, ht, hx₁, hx₂, _, hx₃, hx₄, _⟩ :=
      write_page_effect P fuel hb pbuf unit_num offset length (World.init d mem)
    exact write_enabled_of _ w' _ [W25Q128JV_PAGE_PROGRAM] hw' (init_trace_render d mem w' _ ht)
      (opcodes_of_four x₁ x₂ x₃ x₄ _ k₁ k₂ _ hx₁ hx₂ hx₃ hx₄) (by decide)
  · obtain ⟨w', hw', _, _, x₁, x₂, x₃, x₄, k₁, k₂, ht, hx₁, hx₂, _, hx₃, hx₄, _⟩ :=
      write_byte_effect P fuel hb b a (World.init d mem)
    exact write_enabled_of _ w' _ [W25Q128JV_PAGE_PROGRAM] hw' (init_trace_render d mem w' _ ht)
      (opcodes_of_four x₁ x₂ x₃ x₄ _ k₁ k₂ _ hx₁ hx₂ hx₃ hx₄) (by decide)
  · obtain ⟨w', hw', _, _, x₁, x₂, x₃, x₄, k₁, k₂, ht, hx₁, hx₂, _, hx₃, hx₄, _⟩ :=
      erase_sector_effect P fuel hb unit_num (World.init d mem)
    exact write_enabled_of _ w' _ [W25Q128JV_SECTOR_ERASE_4KB] hw'
      (init_trace_render d mem w' _ ht)
      (opcodes_of_four x₁ x₂ x₃ x₄ _ k₁ k₂ _ hx₁ hx₂ hx₃ hx₄) (by decide)
  · obtain ⟨w', hw', _, _, x₁, x₂, x₃, x₄, k₁, k₂, ht, hx₁, hx₂, _, hx₃, hx₄, _⟩ :=
      erase_block_effect P fuel hb unit_num (World.init d mem)
    exact write_enabled_of _ w' _ [W25Q128JV_BLOCK_ERASE_64KB] hw'
      (init_trace_render d mem w' _ ht)
      (opcodes_of_four x₁ x₂ x₃ x₄ _ k₁ k₂ _ hx₁ hx₂ hx₃ hx₄) (by decide)
  · obtain ⟨w', hw', _, _, x₁, x₂, x₃, x₄, k₁, k₂, ht, hx₁, hx₂, _, hx₃, hx₄, _⟩ :=
      erase_chip_effect P fuel hb (World.init d mem)
    exact write_enabled_of _ w' _ [W25Q128JV_CHIP_ERASE] hw' (init_trace_render d mem w' _ ht)
      (opcodes_of_four x₁ x₂ x₃ x₄ _ k₁ k₂ _ hx₁ hx₂ hx₃ hx₄) (by decide)

/-- C15, at a concrete input. -/
theorem commands_write_enabled_witness :
    BusyClears idle_port 256 ∧ 256 ≤ 256 ∧
    WriteEnabled (w25q128jv_write_sector idle_port 256 0 1 200 300 (World.init () (fun _ => 0))) ∧
    WriteEnabled (w25q128jv_write_block idle_port 256 0 1 200 300 (World.init () (fun _ => 0))) ∧
    WriteEnabled (w25q128jv_write_page idle_port 256 0 1 200 300 (World.init () (fun _ => 0))) ∧
    WriteEnabled (w25q128jv_write_byte idle_port 256 7 9 (World.init () (fun _ => 0))) ∧
    WriteEnabled (w25q128jv_erase_sector idle_port 256 1 (World.init () (fun _ => 0))) ∧
    WriteEnabled (w25q128jv_erase_block idle_port 256 1 (World.init () (fun _ => 0))) ∧
    WriteEnabled (w25q128jv_erase_chip idle_port 256 (World.init () (fun _ => 0))) :=
  ⟨idle_busy_clears 255, by decide,
    commands_write_enabled idle_port 256 (idle_busy_clears 255) (by decide) 0 1 200 300 7 9 ()
      (fun _ => 0)⟩

/-! Chip select brackets every transaction -/

theorem well_bracketed_open (x : Txn) (rest : List Event) :
    well_bracketed true (x.map to_event ++ Event.cs_disable :: rest)
      = well_bracketed false rest := by
  induction x with
  | nil => simp [well_bracketed]
  | cons p x ih =>
    obtain ⟨t, r⟩ := p
    simp only [List.map_cons, List.cons_append]
    rw [show to_event (t, r) = Event.spi t r from rfl, well_bracketed, ih]

theorem well_bracketed_render (T : List Txn) : well_bracketed false (render T) = true := by
  induction T with
  | nil => rfl
  | cons x T ih =>
    simp only [render, render_txn, List.cons_append, List.append_assoc, List.singleton_append,
      List.nil_append]
    rw [well_bracketed, well_bracketed_open, ih]

theorem bracketed_of (r : Option (World σ)) (w' : World σ) (T : List Txn) (hr : r = some w')
    (ht : w'.trace = render T) : Bracketed r :=
  ⟨w', hr, by rw [ht]; exact well_bracketed_render T⟩

theorem read_tail_trace (P : Port σ) (a : Nat) (w : World σ) :
    ∃ x : Txn,
      (w25q128jv_spi P 0 (send_addr P a
        (w25q128jv_spi P W25Q128JV_FAST_READ (__w25q128jv_CS_ENABLE P w)).2)).2.trace
        = w.trace ++ Event.cs_enable :: x.map to_event := by
  obtain ⟨_, _, xa, ht, _⟩ := send_addr_effect P a
    (w25q128jv_spi P W25Q128JV_FAST_READ (__w25q128jv_CS_ENABLE P w)).2
  refine ⟨(W25Q128JV_FAST_READ % 256, (w25q128jv_spi P W25Q128JV_FAST_READ
    (__w25q128jv_CS_ENABLE P w)).1) :: (xa ++ [(0, (w25q128jv_spi P 0 (send_addr P a
      (w25q128jv_spi P W25Q128JV_FAST_READ (__w25q128jv_CS_ENABLE P w)).2)).1)]), ?_⟩
  rw [spi_trace, ht, spi_trace, cs_enable_trace]
  simp

theorem read_byte_trace (P : Port σ) (pbuf a : Nat) (w : World σ) :
    ∃ T : List Txn, (w25q128jv_read_byte P pbuf a w).trace = w.trace ++ render T := by
  obtain ⟨x, hx⟩ := read_tail_trace P a w
  refine ⟨[x ++ [(0, (w25q128jv_spi P W25Q128JV_DUMMY_BYTE (w25q128jv_spi P 0 (send_addr P a
      (w25q128jv_spi P W25Q128JV_FAST_READ (__w25q128jv_CS_ENABLE P w)).2)).2).1)]], ?_⟩
  unfold w25q128jv_read_byte
  simp only []
  generalize (w25q128jv_spi P 0 (send_addr P a
    (w25q128jv_spi P W25Q128JV_FAST_READ (__w25q128jv_CS_ENABLE P w)).2)).2 = W at hx
  rw [cs_disable_trace]
  simp only [spi_trace, hx]
  simp [render, render_txn, W25Q128JV_DUMMY_BYTE]

theorem read_bytes_trace (P : Port σ) (pbuf a length : Nat) (w : World σ) :
    ∃ T : List Txn, (w25q128jv_read_bytes P pbuf a length w).trace = w.trace ++ render T := by
  obtain ⟨x, hx⟩ := read_tail_trace P a w
  obtain ⟨_, _, xd, ht, _, _⟩ := recv_loop_effect P pbuf length
    (w25q128jv_spi P 0 (send_addr P a
      (w25q128jv_spi P W25Q128JV_FAST_READ (__w25q128jv_CS_ENABLE P w)).2)).2 _ rfl
  refine ⟨[x ++ xd], ?_⟩
  unfold w25q128jv_read_bytes
  simp only [cs_disable_trace]
  rw [ht, hx]
  simp [render, render_txn]

theorem read_JEDEC_ID_trace (P : Port σ) (w : World σ) :
    ∃ T : List Txn, (w25q128jv_read_JEDEC_ID P w).2.trace = w.trace ++ render T := by
  refine ⟨[[(W25Q128JV_JEDEC_ID,
      (w25q128jv_spi P W25Q128JV_JEDEC_ID (__w25q128jv_CS_ENABLE P w)).1),
    (0, (w25q128jv_spi P W25Q128JV_DUMMY_BYTE
      (w25q128jv_spi P W25Q128JV_JEDEC_ID (__w25q128jv_CS_ENABLE P w)).2).1),
    (0, (w25q128jv_spi P W25Q128JV_DUMMY_BYTE (w25q128jv_spi P W25Q128JV_DUMMY_BYTE
      (w25q128jv_spi P W25Q128JV_JEDEC_ID (__w25q128jv_CS_ENABLE P w)).2).2).1),
    (0, (w25q128jv_spi P W25Q128JV_DUMMY_BYTE (w25q128jv_spi P W25Q128JV_DUMMY_BYTE
      (w25q128jv_spi P W25Q128JV_DUMMY_BYTE
        (w25q128jv_spi P W25Q128JV_JEDEC_ID (__w25q128jv_CS_ENABLE P w)).2).2).2).1)]], ?_⟩
  simp [w25q128jv_read_JEDEC_ID, render, render_txn, W25Q128JV_JEDEC_ID, W25Q128JV_DUMMY_BYTE]

theorem read_UID_trace (P : Port σ) (uid length : Nat) (w : World σ) :
    ∃ T : List Txn, (w25q128jv_read_UID P uid length w).2.trace = w.trace ++ render T := by
  by_cases h : length = 8
  · subst h
    unfold w25q128jv_read_UID
    simp only [ne_eq, not_true_eq_false, if_false]
    obtain ⟨_, _, x₁, ht₁, _⟩ := dummy_loop_effect P 4
      (w25q128jv_spi P W25Q128JV_READ_UNIQUE_ID (__w25q128jv_CS_ENABLE P w)).2 _ rfl
    obtain ⟨_, _, x₂, ht₂, _, _⟩ := recv_loop_effect P uid 8
      ((List.range 4).foldl (fun w _ => (w25q128jv_spi P W25Q128JV_DUMMY_BYTE w).2)
        (w25q128jv_spi P W25Q128JV_READ_UNIQUE_ID (__w25q128jv_CS_ENABLE P w)).2) _ rfl
    refine ⟨[(W25Q128JV_READ_UNIQUE_ID, (w25q128jv_spi P W25Q128JV_READ_UNIQUE_ID
        (__w25q128jv_CS_ENABLE P w)).1) :: (x₁ ++ x₂)], ?_⟩
    rw [cs_disable_trace, ht₂, ht₁, spi_trace, cs_enable_trace]
    simp [render, render_txn, W25Q128JV_READ_UNIQUE_ID]
  · refine ⟨[], ?_⟩
    unfold w25q128jv_read_UID
    rw [if_pos h]
    simp [render]

/-- C16. On a device whose busy flag clears, every public operation returns
with a trace in which chip selects and deselects alternate, the first event
is a select, the last a deselect, and every byte exchange lies between a
select and the next deselect (`Bracketed`; the sector- and block-level
functions called with an offset beyond the unit issue no event at all). -/
theorem chip_select_brackets (P : Port σ) (fuel : Nat) (hb : BusyClears P fuel)
    (hf : 256 ≤ fuel) (pbuf unit_num offset length b a : Nat) (d : σ) (mem : Nat → Nat) :
    Bracketed (some (w25q128jv_read_JEDEC_ID P (World.init d mem)).2) ∧
    Bracketed (some (w25q128jv_read_UID P pbuf length (World.init d mem)).2) ∧
    Bracketed (w25q128jv_erase_chip P fuel (World.init d mem)) ∧
    Bracketed (w25q128jv_erase_sector P fuel unit_num (World.init d mem)) ∧
    Bracketed (w25q128jv_erase_block P fuel unit_num (World.init d mem)) ∧
    Bracketed (w25q128jv_write_byte P fuel b a (World.init d mem)) ∧
    Bracketed (w25q128jv_write_page P fuel pbuf unit_num offset length (World.init d mem)) ∧
    Bracketed (w25q128jv_write_sector P fuel pbuf unit_num offset length (World.init d mem)) ∧
    Bracketed (w25q128jv_write_block P fuel pbuf unit_num offset length (World.init d mem)) ∧
    Bracketed (some (w25q128jv_read_byte P pbuf a (World.init d mem))) ∧
    Bracketed (some (w25q128jv_read_bytes P pbuf a length (World.init d mem))) ∧
    Bracketed (some (w25q128jv_read_page P pbuf unit_num offset length (World.init d mem))) ∧
    Bracketed (w25q128jv_read_sector P fuel pbuf unit_num offset length (World.init d mem)) ∧
    Bracketed (w25q128jv_read_block P fuel pbuf unit_num offset length (World.init d mem)) := by
  refine ⟨?_, ?_, ?_, ?_, ?_, ?_, ?_, ?_, ?_, ?_, ?_, ?_, ?_, ?_⟩
  · obtain ⟨T, ht⟩ := read_JEDEC_ID_trace P (World.init d mem)
    exact bracketed_of _ _ T rfl (init_trace_render d mem _ T ht)
  · obtain ⟨T, ht⟩ := read_UID_trace P pbuf length (World.init d mem)
    exact bracketed_of _ _ T rfl (init_trace_render d mem _ T ht)
  · obtain ⟨w', hw', _, _, x₁, x₂, x₃, x₄, _, _, ht, _⟩ :=
      erase_chip_effect P fuel hb (World.init d mem)
    exact bracketed_of _ w' _ hw' (init_trace_render d mem w' _ ht)
  · obtain ⟨w', hw', _, _, x₁, x₂, x₃, x₄, _, _, ht, _⟩ :=
      erase_sector_effect P fuel hb unit_num (World.init d mem)
    exact bracketed_of _ w' _ hw' (init_trace_render d mem w' _ ht)
  · obtain ⟨w', hw', _, _, x₁, x₂, x₃, x₄, _, _, ht, _⟩ :=
      erase_block_effect P fuel hb unit_num (World.init d mem)
    exact bracketed_of _ w' _ hw' (init_trace_render d mem w' _ ht)
  · obtain ⟨w', hw', _, _, x₁, x₂, x₃, x₄, _, _, ht, _⟩ :=
      write_byte_effect P fuel hb b a (World.init d mem)
    exact bracketed_of _ w' _ hw' (init_trace_render d mem w' _ ht)
  · obtain ⟨w', hw', _, _, x₁, x₂, x₃, x₄, _, _, ht, _⟩ :=
      write_page_effect P fuel hb pbuf unit_num offset length (World.init d mem)
    exact bracketed_of _ w' _ hw' (init_trace_render d mem w' _ ht)
  · by_cases ho : offset < 4096
    · have hE := effective_length_pos 4096 offset length ho
      have hE' := effective_length_le 4096 offset length
      obtain ⟨w', T, hw', ht, _⟩ :=
        write_pages_opcodes P fuel hb fuel pbuf (u32 (w25q128jv_sector2page unit_num + offset / 256))
          (effective_length 4096 offset length) (offset % 256) (World.init d mem)
          (by omega) hE (by omega) (by omega)
      exact bracketed_of _ w' T
        (by rw [write_sector_eq P fuel pbuf unit_num offset length _ ho]; exact hw')
        (init_trace_render d mem w' T ht)
    · exact bracketed_of _ (World.init d mem) []
        (by unfold w25q128jv_write_sector
            simp only [W25Q128JV_SECTOR_SIZE, ge_iff_le]
            rw [if_pos (by omega)])
        rfl
  · by_cases ho : offset < 65536
    · have hE := effective_length_pos 65536 offset length ho
      have hE' := effective_length_le 65536 offset length
      obtain ⟨w', T, hw', ht, _⟩ :=
        write_pages_opcodes P fuel hb fuel pbuf (u32 (w25q128jv_sector2page unit_num + offset / 256))
          (effective_length 65536 offset length) (offset % 256) (World.init d mem)
          (by omega) hE (by omega) (by omega)
      exact bracketed_of _ w' T
        (by rw [write_block_eq P fuel pbuf unit_num offset length _ ho]; exact hw')
        (init_trace_render d mem w' T ht)
    · exact bracketed_of _ (World.init d mem) []
        (by unfold w25q128jv_write_block
            simp only [W25Q128JV_BLOCK_SIZE, ge_iff_le]
            rw [if_pos (by omega)])
        rfl
  · obtain ⟨T, ht⟩ := read_byte_trace P pbuf a (World.init d mem)
    exact bracketed_of _ _ T rfl (init_trace_render d mem _ T ht)
  · obtain ⟨T, ht⟩ := read_bytes_trace P pbuf a length (World.init d mem)
    exact bracketed_of _ _ T rfl (init_trace_render d mem _ T ht)
  · obtain ⟨_, _, x, ht, _⟩ := read_page_effect P pbuf unit_num offset length (World.init d mem) _ rfl
    exact bracketed_of _ _ [x] rfl (init_trace_render d mem _ _ ht)
  · by_cases ho : offset < 4096
    · have hE := effective_length_pos 4096 offset length ho
      have hE' := effective_length_le 4096 offset length
      obtain ⟨w', T, hw', _, ht, _⟩ :=
        read_pages_effect P fuel pbuf (u32 (w25q128jv_sector2page unit_num + offset / 256))
          (effective_length 4096 offset length) (offset % 256) (World.init d mem)
          (by omega) hE (by omega) (by omega)
      exact bracketed_of _ w' T
        (by rw [read_sector_eq P fuel pbuf unit_num offset length _ ho]; exact hw')
        (init_trace_render d mem w' T ht)
    · exact bracketed_of _ (World.init d mem) []
        (by unfold w25q128jv_read_sector
            simp only [W25Q128JV_SECTOR_SIZE, ge_iff_le]
            rw [if_pos (by omega)])
        rfl
  · by_cases ho : offset < 65536
    · have hE := effective_length_pos 65536 offset length ho
      have hE' := effective_length_le 65536 offset length
      obtain ⟨w', T, hw', _, ht, _⟩ :=
        read_pages_effect P fuel pbuf (u32 (w25q128jv_block2page unit_num + offset / 256))
          (effective_length 65536 offset length) (offset % 256) (World.init d mem)
          (by omega) hE (by omega) (by omega)
      exact bracketed_of _ w' T
        (by rw [read_block_eq P fuel pbuf unit_num offset length _ ho]; exact hw')
        (init_trace_render d mem w' T ht)
    · exact bracketed_of _ (World.init d mem) []
        (by unfold w25q128jv_read_block
            simp only [W25Q128JV_BLOCK_SIZE, ge_iff_le]
            rw [if_pos (by omega)])
        rfl

/-- C16, at a concrete input. -/
theorem chip_select_brackets_witness :
    BusyClears idle_port 256 ∧ 256 ≤ 256 ∧
    Bracketed (w25q128jv_write_sector idle_port 256 0 1 200 300 (World.init () (fun _ => 0))) ∧
    Bracketed (w25q128jv_read_block idle_port 256 0 1 200 300 (World.init () (fun _ => 0))) :=
  ⟨idle_busy_clears 255, by decide,
    (chip_select_brackets idle_port 256 (idle_busy_clears 255) (by decide) 0 1 200 300 7 9 ()
      (fun _ => 0)).2.2.2.2.2.2.2.1,
    (chip_select_brackets idle_port 256 (idle_busy_clears 255) (by decide) 0 1 200 300 7 9 ()
      (fun _ => 0)).2.2.2.2.2.2.2.2.2.2.2.2.2⟩

/-! Shape and termination of the splitting loops -/

theorem span_calls_succ (wr : Bool) (n page ofs len : Nat) :
    span_calls wr (n + 1) page ofs len
      = PageCall.mk wr page ofs len (min len (256 - ofs)) ::
          (if 256 - ofs < len then span_calls wr n (u32 (page + 1)) 0 (len - (256 - ofs))
            else []) := rfl

theorem span_calls_length (wr : Bool) (n : Nat) :
    ∀ (page ofs len : Nat), ofs < 256 → 0 < len → ofs + len ≤ 256 * n →
      (span_calls wr n page ofs len).length = (ofs + len + 255) / 256 := by
  induction n with
  | zero => intro _ ofs len _ h₁ h₂; omega
  | succ n ih =>
    intro page ofs len ho hl hn
    rw [span_calls_succ]
    by_cases hmore : 256 - ofs < len
    · rw [if_pos hmore, List.length_cons,
        ih (u32 (page + 1)) 0 (len - (256 - ofs)) (by omega) (by omega) (by omega)]
      omega
    · rw [if_neg hmore, List.length_cons, List.length_nil]
      omega

theorem span_calls_sum (wr : Bool) (n : Nat) :
    ∀ (page ofs len : Nat), ofs < 256 → 0 < len → ofs + len ≤ 256 * n →
      ((span_calls wr n page ofs len).map (fun c => c.count)).sum = len := by
  induction n with
  | zero => intro _ ofs len _ h₁ h₂; omega
  | succ n ih =>
    intro page ofs len ho hl hn
    rw [span_calls_succ]
    by_cases hmore : 256 - ofs < len
    · rw [if_pos hmore, List.map_cons, List.sum_cons,
        ih (u32 (page + 1)) 0 (len - (256 - ofs)) (by omega) (by omega) (by omega)]
      simp only
      omega
    · rw [if_neg hmore]
      simp only [List.map_cons, List.map_nil, List.sum_cons, List.sum_nil]
      omega

theorem span_calls_get (wr : Bool) (n : Nat) :
    ∀ (page ofs len : Nat), ofs < 256 → 0 < len → ofs + len ≤ 256 * n →
      page + (ofs + len + 255) / 256 ≤ 4294967296 →
      ∀ (i : Nat) (c : PageCall), (span_calls wr n page ofs len)[i]? = some c →
        c.write = wr ∧ c.page_num = page + i ∧ c.offset = (if i = 0 then ofs else 0) ∧
        c.count = min c.length (256 - c.offset) ∧
        (i + 1 < (ofs + len + 255) / 256 → c.offset + c.count = 256) := by
  induction n with
  | zero => intro _ ofs len _ h₁ h₂; omega
  | succ n ih =>
    intro page ofs len ho hl hn hp i c hc
    rw [span_calls_succ] at hc
    cases i with
    | zero =>
      simp only [List.getElem?_cons_zero, Option.some.injEq] at hc
      subst hc
      refine ⟨rfl, rfl, rfl, rfl, ?_⟩
      intro h
      simp only
      omega
    | succ j =>
      rw [List.getElem?_cons_succ] at hc
      by_cases hmore : 256 - ofs < len
      · rw [if_pos hmore] at hc
        have hu : u32 (page + 1) = page + 1 := by unfold u32; omega
        rw [hu] at hc
        obtain ⟨h₁, h₂, h₃, h₄, h₅⟩ :=
          ih (page + 1) 0 (len - (256 - ofs)) (by omega) (by omega) (by omega) (by omega) j c hc
        refine ⟨h₁, by omega, ?_, h₄, ?_⟩
        · rw [h₃]; simp
        · intro h
          exact h₅ (by omega)
      · rw [if_neg hmore] at hc
        simp at hc

theorem countdown_span_calls (wr : Bool) (n : Nat) :
    ∀ (page ofs len : Nat), ofs < 256 → 0 < len → ofs + len ≤ 256 * n →
      countdown (span_calls wr n page ofs len) = true := by
  induction n with
  | zero => intro _ ofs len _ h₁ h₂; omega
  | succ n ih =>
    intro page ofs len ho hl hn
    rw [span_calls_succ]
    by_cases hmore : 256 - ofs < len
    · rw [if_pos hmore]
      have hih := ih (u32 (page + 1)) 0 (len - (256 - ofs)) (by omega) (by omega) (by omega)
      cases n with
      | zero => omega
      | succ m =>
        rw [span_calls_succ] at hih ⊢
        rw [countdown, hih, Bool.and_true]
        simp only [decide_eq_true_eq]
        omega
    · rw [if_neg hmore, countdown]
      simp only [decide_eq_true_eq]
      omega

theorem terminates_of_span (wr : Bool) (n page ofs len hi : Nat) (ho : ofs < 256) (hl : 0 < len)
    (hn : ofs + len ≤ 256 * n) (hhi : ofs + len ≤ 256 * hi)
    (r : Option (World σ)) (w' : World σ) (hr : r = some w')
    (hc : w'.calls = span_calls wr n page ofs len) : Terminates hi r := by
  have hlen := span_calls_length wr n page ofs len ho hl hn
  refine ⟨w', hr, ?_, ?_, ?_⟩
  · rw [hc, hlen]; omega
  · rw [hc, hlen]; omega
  · rw [hc]; exact countdown_span_calls wr n page ofs len ho hl hn

/-- C14. On a device whose busy flag clears, `w25q128jv_write_sector` on sector
`s < 512` at `offset < 4096`, with `E` the effective length and
`o = offset % 256`, makes `(o + E + 255) / 256` page-program calls, that is
`ceil((o + E) / 256)`; call `i` targets page `16*s + offset/256 + i`, at
in-page offset `o` when `i = 0` and `0` otherwise; every call but the last runs
to the end of its page; the byte counts add up to `E`; and the data-carrying
transactions of the trace are those of the calls. For sector 0, offset 200,
length 300 the calls are 56 bytes at page 0 offset 200, then 244 bytes at
page 1 offset 0. -/
theorem write_sector_page_calls (P : Port σ) (fuel : Nat) (hb : BusyClears P fuel)
    (hf : 16 ≤ fuel) (pbuf s offset length : Nat) (d : σ) (mem : Nat → Nat)
    (hs : s < 512) (ho : offset < 4096) :
    (∃ w', w25q128jv_write_sector P fuel pbuf s offset length (World.init d mem) = some w' ∧
      w'.calls.length = (offset % 256 + effective_length 4096 offset length + 255) / 256 ∧
      (∀ (i : Nat) (c : PageCall), w'.calls[i]? = some c →
        c.write = true ∧ c.page_num = 16 * s + offset / 256 + i ∧
        c.offset = (if i = 0 then offset % 256 else 0) ∧
        (i + 1 < w'.calls.length → c.offset + c.count = 256)) ∧
      (w'.calls.map (fun c => c.count)).sum = effective_length 4096 offset length ∧
      (transactions w'.trace).filterMap data_span = w'.calls.map call_span) ∧
    (∃ w', w25q128jv_write_sector P fuel pbuf 0 200 300 (World.init d mem) = some w' ∧
      w'.calls = [PageCall.mk true 0 200 300 56, PageCall.mk true 1 0 244 244]) := by
  constructor
  · have hE := effective_length_pos 4096 offset length ho
    have hE' := effective_length_le 4096 offset length
    have hu : u32 (w25q128jv_sector2page s + offset / 256) = 16 * s + offset / 256 := by
      rw [sector2page_small s (by omega)]; unfold u32; omega
    obtain ⟨w', T, hw', _, hc, ht, hsp, _⟩ :=
      write_pages_effect P fuel hb fuel pbuf (16 * s + offset / 256)
        (effective_length 4096 offset length) (offset % 256) (World.init d mem)
        (by omega) hE (by omega) (by omega)
    have hc' : w'.calls = span_calls true fuel (16 * s + offset / 256) (offset % 256)
        (effective_length 4096 offset length) := by rw [hc]; rfl
    have hlen := span_calls_length true fuel (16 * s + offset / 256) (offset % 256)
      (effective_length 4096 offset length) (by omega) hE (by omega)
    refine ⟨w', by rw [write_sector_eq P fuel pbuf s offset length _ ho, hu]; exact hw',
      by rw [hc', hlen], ?_, ?_, ?_⟩
    · intro i c hi
      rw [hc'] at hi
      obtain ⟨h₁, h₂, h₃, _, h₅⟩ := span_calls_get true fuel (16 * s + offset / 256)
        (offset % 256) (effective_length 4096 offset length) (by omega) hE (by omega)
        (by omega) i c hi
      refine ⟨h₁, h₂, h₃, ?_⟩
      intro h
      rw [hc', hlen] at h
      exact h₅ h
    · rw [hc']
      exact span_calls_sum true fuel _ _ _ (by omega) hE (by omega)
    · rw [init_trace_render d mem w' T ht, transactions_render, hsp, hc']
  · obtain ⟨k, rfl⟩ : ∃ k, fuel = k + 2 := ⟨fuel - 2, by omega⟩
    obtain ⟨w', T, hw', _, hc, _⟩ :=
      write_pages_effect P (k + 2) hb (k + 2) pbuf 0 300 200 (World.init d mem)
        (by omega) (by omega) (by omega) (by omega)
    refine ⟨w', ?_, ?_⟩
    · rw [write_sector_eq P (k + 2) pbuf 0 200 300 _ (by omega)]
      exact hw'
    · rw [hc]
      rfl

/-- C14, at the input of the example. -/
theorem write_sector_page_calls_witness :
    BusyClears idle_port 16 ∧ 16 ≤ 16 ∧ 0 < 512 ∧ 200 < 4096 ∧
    ∃ w', w25q128jv_write_sector idle_port 16 0 0 200 300 (World.init () (fun _ => 0)) = some w' ∧
      w'.calls = [PageCall.mk true 0 200 300 56, PageCall.mk true 1 0 244 244] :=
  ⟨idle_busy_clears 15, by decide, by decide, by decide,
    (write_sector_page_calls idle_port 16 (idle_busy_clears 15) (by decide) 0 0 200 300 ()
      (fun _ => 0) (by decide) (by decide)).2⟩

/-- C17. Whenever the offset is below the unit size, the splitting loops of the
sector functions return after between 1 and 16 page-level calls, and those of
the block functions after between 1 and 256 (the writers on a device whose
busy flag clears); along the calls the remaining-length counter goes down by
`256 - offset`, a number from 1 to 256, stays positive up to the last call,
and is zero or negative after it (`Terminates`). -/
theorem span_loops_terminate (P : Port σ) (fs fb : Nat) (hbs : BusyClears P fs)
    (hbb : BusyClears P fb) (hfs : 16 ≤ fs) (hfb : 256 ≤ fb)
    (pbuf unit_num so bo length : Nat) (d : σ) (mem : Nat → Nat)
    (hso : so < 4096) (hbo : bo < 65536) :
    Terminates 16 (w25q128jv_read_sector P fs pbuf unit_num so length (World.init d mem)) ∧
    Terminates 16 (w25q128jv_write_sector P fs pbuf unit_num so length (World.init d mem)) ∧
    Terminates 256 (w25q128jv_read_block P fb pbuf unit_num bo length (World.init d mem)) ∧
    Terminates 256 (w25q128jv_write_block P fb pbuf unit_num bo length (World.init d mem)) := by
  have hS := effective_length_pos 4096 so length hso
  have hS' := effective_length_le 4096 so length
  have hB := effective_length_pos 65536 bo length hbo
  have hB' := effective_length_le 65536 bo length
  refine ⟨?_, ?_, ?_, ?_⟩
  · obtain ⟨w', T, hw', hc, _⟩ :=
      read_pages_effect P fs pbuf (u32 (w25q128jv_sector2page unit_num + so / 256))
        (effective_length 4096 so length) (so % 256) (World.init d mem)
        (by omega) hS (by omega) (by omega)
    exact terminates_of_span false fs (u32 (w25q128jv_sector2page unit_num + so / 256)) (so % 256)
      (effective_length 4096 so length) 16 (by omega) hS (by omega) (by omega) _ w'
      (by rw [read_sector_eq P fs pbuf unit_num so length _ hso]; exact hw')
      (by rw [hc]; rfl)
  · obtain ⟨w', T, hw', _, hc, _⟩ :=
      write_pages_effect P fs hbs fs pbuf (u32 (w25q128jv_sector2page unit_num + so / 256))
        (effective_length 4096 so length) (so % 256) (World.init d mem)
        (by omega) hS (by omega) (by omega)
    exact terminates_of_span true fs (u32 (w25q128jv_sector2page unit_num + so / 256)) (so % 256)
      (effective_length 4096 so length) 16 (by omega) hS (by omega) (by omega) _ w'
      (by rw [write_sector_eq P fs pbuf unit_num so length _ hso]; exact hw')
      (by rw [hc]; rfl)
  · obtain ⟨w', T, hw', hc, _⟩ :=
      read_pages_effect P fb pbuf (u32 (w25q128jv_block2page unit_num + bo / 256))
        (effective_length 65536 bo length) (bo % 256) (World.init d mem)
        (by omega) hB (by omega) (by omega)
    exact terminates_of_span false fb (u32 (w25q128jv_block2page unit_num + bo / 256)) (bo % 256)
      (effective_length 65536 bo length) 256 (by omega) hB (by omega) (by omega) _ w'
      (by rw [read_block_eq P fb pbuf unit_num bo length _ hbo]; exact hw')
      (by rw [hc]; rfl)
  · obtain ⟨w', T, hw', _, hc, _⟩ :=
      write_pages_effect P fb hbb fb pbuf (u32 (w25q128jv_sector2page unit_num + bo / 256))
        (effective_length 65536 bo length) (bo % 256) (World.init d mem)
        (by omega) hB (by omega) (by omega)
    exact terminates_of_span true fb (u32 (w25q128jv_sector2page unit_num + bo / 256)) (bo % 256)
      (effective_length 65536 bo length) 256 (by omega) hB (by omega) (by omega) _ w'
      (by rw [write_block_eq P fb pbuf unit_num bo length _ hbo]; exact hw')
      (by rw [hc]; rfl)

/-- C17, at a concrete input. -/
theorem span_loops_terminate_witness :
    BusyClears idle_port 16 ∧ BusyClears idle_port 256 ∧ 16 ≤ 16 ∧ 256 ≤ 256 ∧
    0 < 4096 ∧ 0 < 65536 ∧
    Terminates 16 (w25q128jv_read_sector idle_port 16 0 3 0 0 (World.init () (fun _ => 0))) ∧
    Terminates 16 (w25q128jv_write_sector idle_port 16 0 3 0 0 (World.init () (fun _ => 0))) ∧
    Terminates 256 (w25q128jv_read_block idle_port 256 0 3 0 0 (World.init () (fun _ => 0))) ∧
    Terminates 256 (w25q128jv_write_block idle_port 256 0 3 0 0 (World.init () (fun _ => 0))) :=
  ⟨idle_busy_clears 15, idle_busy_clears 255, by decide, by decide, by decide, by decide,
    span_loops_terminate idle_port 16 256 (idle_busy_clears 15) (idle_busy_clears 255)
      (by decide) (by decide) 0 3 0 0 0 () (fun _ => 0) (by decide) (by decide)⟩

end W25Q128JV
